import Mathlib

/-!
Verification development for an AWS Signature Version 4 signing and
verification library.  The Python source (`src/aws4/__init__.py`) is shallowly
embedded: header mappings become association lists, byte strings become lists
of naturals, Python string operations (`split`, `partition`, `lower`,
`re.sub("( +)", " ", .)`) are re-implemented with the same semantics, and the
SHA-256 / HMAC-SHA256 primitives from `hashlib` / `hmac` are implemented in
full so that every definition is executable.  Fallible operations return
`Except PyError`, where `PyError` distinguishes the library's own exception
taxonomy (`MissingHeaderError`, `InvalidDateError`, `InvalidSignatureError`)
from Python built-in failures (`KeyError`, `ValueError`, parser failures).
-/

set_option maxRecDepth 20000

/-! ## Three-way comparison, Python-style ordering on strings and lists -/

/-- Three-way comparison of two characters by Unicode code point, as Python
compares characters inside strings. -/
def cmpChar (a b : Char) : Ordering :=
  if a.toNat < b.toNat then .lt else if b.toNat < a.toNat then .gt else .eq

/-- Lexicographic three-way comparison of lists over a base comparison,
matching Python sequence comparison (shorter prefix sorts first). -/
def cmpLex (cmp : α → α → Ordering) : List α → List α → Ordering
  | [], [] => .eq
  | [], _ :: _ => .lt
  | _ :: _, [] => .gt
  | a :: as, b :: bs =>
    match cmp a b with
    | .eq => cmpLex cmp as bs
    | o => o

/-- Python comparison of strings: lexicographic by code point. -/
def cmpStr (a b : String) : Ordering :=
  cmpLex cmpChar a.data b.data

/-- Python comparison of lists of strings (used by `sorted` on the
query-string component lists). -/
def cmpStrList (a b : List String) : Ordering :=
  cmpLex cmpStr a b

/-- Python comparison of `(key, value)` string pairs (used by `sorted` on
dictionary items). -/
def cmpPair (a b : String × String) : Ordering :=
  match cmpStr a.1 b.1 with
  | .eq => cmpStr a.2 b.2
  | o => o

/-- Boolean "less or equal" derived from a three-way comparison. -/
def cmpLe (cmp : α → α → Ordering) (a b : α) : Bool :=
  cmp a b ≠ Ordering.gt

/-! ## Python `sorted`: a stable ascending sort -/

/-- Insert an element into an ascending list, before the first element it
compares less-or-equal to (stable insertion). -/
def pyInsert (le : α → α → Bool) (x : α) : List α → List α
  | [] => [x]
  | y :: ys => if le x y then x :: y :: ys else y :: pyInsert le x ys

/-- Embedding of Python builtin `sorted`: a stable ascending sort by the
given boolean less-or-equal test. -/
def pySorted (le : α → α → Bool) : List α → List α
  | [] => []
  | x :: xs => pyInsert le x (pySorted le xs)

/-- Python `sorted` comparison on dictionary items. -/
def pairLe (a b : String × String) : Bool :=
  cmpLe cmpPair a b

/-- Python `sorted` comparison on lists of strings. -/
def strListLe (a b : List String) : Bool :=
  cmpLe cmpStrList a b

/-! ## Character utilities: Python `str.lower`, decimal and hex digits, UTF-8 -/

/-- Embedding of Python `str.lower` on a single character.  Python lowercases
the full Unicode range; header names and the fixed protocol strings handled
by this library are ASCII, for which lowering adds 32 to the code points of
`A`..`Z` and fixes everything else, exactly as below. -/
def pyLowerChar (c : Char) : Char :=
  if h : 65 ≤ c.toNat ∧ c.toNat ≤ 90 then
    ⟨c.val + 32, by
      have hct : c.toNat = c.val.toNat := rfl
      have hv : (c.val + 32).toNat = c.toNat + 32 := by
        rw [UInt32.toNat_add]
        have h32 : (32 : UInt32).toNat = 32 := rfl
        have hsz : UInt32.size = 4294967296 := rfl
        rw [h32, hsz, hct]
        have h2 := h.2
        rw [hct] at h2
        omega
      exact Or.inl (by rw [hv]; have := h.2; omega)⟩
  else c

/-- Embedding of Python `str.lower`. -/
def pyLower (s : String) : String :=
  ⟨s.data.map pyLowerChar⟩

/-- Decimal digit character for values 0 through 9. -/
def digitChar (n : Nat) : Char :=
  "0123456789".data.getD n '0'

/-- Lowercase hexadecimal digit character for values 0 through 15. -/
def hexDigitChar (n : Nat) : Char :=
  "0123456789abcdef".data.getD n '0'

/-- Decimal digit list of a natural number, most significant digit first,
with explicit recursion fuel so the kernel can evaluate it; this embeds the
digit emission of Python `str` / `strftime` on a natural number. -/
def decDigitsAux : Nat → Nat → List Char
  | 0, _ => []
  | fuel + 1, n =>
    if n < 10 then [digitChar n] else decDigitsAux fuel (n / 10) ++ [digitChar (n % 10)]

/-- Decimal digit characters of a natural number. -/
def decDigits (n : Nat) : List Char :=
  decDigitsAux (n + 1) n

/-- UTF-8 encoding of one character as byte values, matching Python
`str.encode()`. -/
def utf8EncodeCharNat (c : Char) : List Nat :=
  let n := c.toNat
  if n < 128 then [n]
  else if n < 2048 then [192 + n / 64, 128 + n % 64]
  else if n < 65536 then [224 + n / 4096, 128 + n / 64 % 64, 128 + n % 64]
  else [240 + n / 262144, 128 + n / 4096 % 64, 128 + n / 64 % 64, 128 + n % 64]

/-- UTF-8 bytes of a string, matching Python `str.encode()`. -/
def utf8Bytes (s : String) : List Nat :=
  s.data.flatMap utf8EncodeCharNat

/-! ## Python string splitting, partitioning and joining -/

/-- Embedding of Python `str.split(sep)` for a one-character separator:
splits on every occurrence and keeps empty pieces. -/
def splitChar (c : Char) : List Char → List (List Char)
  | [] => [[]]
  | x :: rest =>
    if x = c then [] :: splitChar c rest
    else
      match splitChar c rest with
      | [] => [[x]]
      | g :: gs => (x :: g) :: gs

/-- Embedding of Python `str.split(", ")` (the only multi-character
separator the library uses): splits on every non-overlapping occurrence of
comma-followed-by-space, scanning left to right. -/
def splitCommaSpace : List Char → List (List Char)
  | [] => [[]]
  | [x] => [[x]]
  | x :: y :: rest =>
    if x = ',' ∧ y = ' ' then [] :: splitCommaSpace rest
    else
      match splitCommaSpace (y :: rest) with
      | [] => [[x]]
      | g :: gs => (x :: g) :: gs

/-- Embedding of Python `str.partition(sep)` for a one-character separator:
returns the piece before the first occurrence, whether the separator was
found, and the piece after it. -/
def partitionChar (c : Char) : List Char → List Char × Bool × List Char
  | [] => ([], false, [])
  | x :: rest =>
    if x = c then ([], true, rest)
    else
      match partitionChar c rest with
      | (before, found, after) => (x :: before, found, after)

/-- Embedding of Python `sep.join(...)` for a one-character separator. -/
def joinChar (c : Char) : List (List Char) → List Char
  | [] => []
  | [g] => g
  | g :: gs => g ++ c :: joinChar c gs

/-- String-level wrapper for `splitChar`. -/
def pySplitChar (c : Char) (s : String) : List String :=
  (splitChar c s.data).map String.mk

/-- String-level wrapper for `splitCommaSpace`. -/
def pySplitCommaSpace (s : String) : List String :=
  (splitCommaSpace s.data).map String.mk

/-- String-level wrapper for `partitionChar`, returning head and tail as in
Python `str.partition` (the separator itself is dropped). -/
def pyPartitionChar (c : Char) (s : String) : String × Bool × String :=
  match partitionChar c s.data with
  | (before, found, after) => (⟨before⟩, found, ⟨after⟩)

/-- String-level wrapper for `joinChar`. -/
def pyJoinChar (c : Char) (parts : List String) : String :=
  ⟨joinChar c (parts.map String.data)⟩

/-! ## Whitespace collapsing -/

/-- Embedding of `re.compile("( +)").sub(" ", value)`: every maximal run of
one or more ASCII spaces is replaced by a single space.  The boolean flag
records whether the previous character was part of a space run. -/
def subSpaces : Bool → List Char → List Char
  | _, [] => []
  | prevSpace, c :: rest =>
    if c = ' ' then
      if prevSpace then subSpaces true rest else ' ' :: subSpaces true rest
    else c :: subSpaces false rest

/-- Embedding of `_MULTI_SPACE_REGEX.sub(" ", value)` from the source: runs
of consecutive spaces in a header value collapse to a single space. -/
def multiSpaceSub (s : String) : String :=
  ⟨subSpaces false s.data⟩

/-! ## SHA-256 and HMAC-SHA256

Implementation of the primitives the source obtains from Python `hashlib`
and `hmac`.  Bytes are naturals below 256; words are naturals kept below
2^32 by explicit reduction. -/

/-- Right rotation of a 32-bit word. -/
def rotr32 (n x : Nat) : Nat :=
  ((x >>> n) ||| (x <<< (32 - n))) % 4294967296

/-- SHA-256 message-schedule sigma-0. -/
def ssig0 (x : Nat) : Nat :=
  rotr32 7 x ^^^ rotr32 18 x ^^^ (x >>> 3)

/-- SHA-256 message-schedule sigma-1. -/
def ssig1 (x : Nat) : Nat :=
  rotr32 17 x ^^^ rotr32 19 x ^^^ (x >>> 10)

/-- SHA-256 round function big-sigma-0. -/
def bsig0 (x : Nat) : Nat :=
  rotr32 2 x ^^^ rotr32 13 x ^^^ rotr32 22 x

/-- SHA-256 round function big-sigma-1. -/
def bsig1 (x : Nat) : Nat :=
  rotr32 6 x ^^^ rotr32 11 x ^^^ rotr32 25 x

/-- The eight-word SHA-256 state. -/
structure Hash8 where
  a : Nat
  b : Nat
  c : Nat
  d : Nat
  e : Nat
  f : Nat
  g : Nat
  h : Nat
deriving DecidableEq

/-- SHA-256 initial state. -/
def sha256Init : Hash8 :=
  ⟨1779033703, 3144134277, 1013904242, 2773480762,
   1359893119, 2600822924, 528734635, 1541459225⟩

/-- SHA-256 round constants. -/
def sha256K : List Nat :=
  [1116352408, 1899447441, 3049323471, 3921009573, 961987163, 1508970993,
   2453635748, 2870763221, 3624381080, 310598401, 607225278, 1426881987,
   1925078388, 2162078206, 2614888103, 3248222580, 3835390401, 4022224774,
   264347078, 604807628, 770255983, 1249150122, 1555081692, 1996064986,
   2554220882, 2821834349, 2952996808, 3210313671, 3336571891, 3584528711,
   113926993, 338241895, 666307205, 773529912, 1294757372, 1396182291,
   1695183700, 1986661051, 2177026350, 2456956037, 2730485921, 2820302411,
   3259730800, 3345764771, 3516065817, 3600352804, 4094571909, 275423344,
   430227734, 506948616, 659060556, 883997877, 958139571, 1322822218,
   1537002063, 1747873779, 1955562222, 2024104815, 2227730452, 2361852424,
   2428436474, 2756734187, 3204031479, 3329325298]

/-- Big-endian 32-bit words from a byte list (groups of four). -/
def toWords : List Nat → List Nat
  | b0 :: b1 :: b2 :: b3 :: rest =>
    (b0 * 16777216 + b1 * 65536 + b2 * 256 + b3) :: toWords rest
  | _ => []

/-- Extend the sixteen message words to sixty-four, driven by fuel. -/
def extendWords : Nat → List Nat → List Nat
  | 0, ws => ws
  | fuel + 1, ws =>
    let n := ws.length
    let next := (ws.getD (n - 16) 0 + ssig0 (ws.getD (n - 15) 0) +
      ws.getD (n - 7) 0 + ssig1 (ws.getD (n - 2) 0)) % 4294967296
    extendWords fuel (ws ++ [next])

/-- One SHA-256 round. -/
def sha256Round (st : Hash8) (k w : Nat) : Hash8 :=
  let ch := (st.e &&& st.f) ^^^ ((4294967295 - st.e) &&& st.g)
  let maj := (st.a &&& st.b) ^^^ (st.a &&& st.c) ^^^ (st.b &&& st.c)
  let t1 := (st.h + bsig1 st.e + ch + k + w) % 4294967296
  let t2 := (bsig0 st.a + maj) % 4294967296
  ⟨(t1 + t2) % 4294967296, st.a, st.b, st.c,
   (st.d + t1) % 4294967296, st.e, st.f, st.g⟩

/-- Compression of one 64-byte chunk. -/
def sha256Compress (st : Hash8) (chunk : List Nat) : Hash8 :=
  let ws := extendWords 48 (toWords chunk)
  let r := (sha256K.zip ws).foldl (fun s kw => sha256Round s kw.1 kw.2) st
  ⟨(st.a + r.a) % 4294967296, (st.b + r.b) % 4294967296,
   (st.c + r.c) % 4294967296, (st.d + r.d) % 4294967296,
   (st.e + r.e) % 4294967296, (st.f + r.f) % 4294967296,
   (st.g + r.g) % 4294967296, (st.h + r.h) % 4294967296⟩

/-- Big-endian eight-byte encoding of a (bit-)length. -/
def beBytes8 (n : Nat) : List Nat :=
  [n / 72057594037927936 % 256, n / 281474976710656 % 256,
   n / 1099511627776 % 256, n / 4294967296 % 256, n / 16777216 % 256,
   n / 65536 % 256, n / 256 % 256, n % 256]

/-- SHA-256 padding: a 0x80 byte, zeros to 56 mod 64, then the bit length. -/
def padMessage (msg : List Nat) : List Nat :=
  msg ++ 128 :: List.replicate ((64 - (msg.length + 9) % 64) % 64) 0 ++
    beBytes8 (msg.length * 8)

/-- Split into 64-byte chunks, driven by fuel. -/
def chunksAux : Nat → List Nat → List (List Nat)
  | 0, _ => []
  | _ + 1, [] => []
  | fuel + 1, x :: rest => (x :: rest).take 64 :: chunksAux fuel ((x :: rest).drop 64)

/-- Split a byte list into 64-byte chunks. -/
def chunks64 (l : List Nat) : List (List Nat) :=
  chunksAux l.length l

/-- Big-endian bytes of one 32-bit word. -/
def wordBytes (n : Nat) : List Nat :=
  [n / 16777216 % 256, n / 65536 % 256, n / 256 % 256, n % 256]

/-- SHA-256 digest of a byte list, as 32 bytes. -/
def sha256Bytes (msg : List Nat) : List Nat :=
  let fin := (chunks64 (padMessage msg)).foldl sha256Compress sha256Init
  wordBytes fin.a ++ wordBytes fin.b ++ wordBytes fin.c ++ wordBytes fin.d ++
    wordBytes fin.e ++ wordBytes fin.f ++ wordBytes fin.g ++ wordBytes fin.h

/-- Lowercase hex string of a byte list, matching Python `hexdigest`. -/
def hexOfBytes (bs : List Nat) : String :=
  ⟨bs.flatMap (fun b => [hexDigitChar (b / 16 % 16), hexDigitChar (b % 16)])⟩

/-- HMAC-SHA256 with a 64-byte block size, matching Python `hmac.new` with
`hashlib.sha256`; returns the raw 32-byte digest. -/
def hmacSha256 (key msg : List Nat) : List Nat :=
  let key' := if 64 < key.length then sha256Bytes key else key
  let kpad := key' ++ List.replicate (64 - key'.length) 0
  let ipadded := kpad.map (fun b => b ^^^ 54)
  let opadded := kpad.map (fun b => b ^^^ 92)
  sha256Bytes (opadded ++ sha256Bytes (ipadded ++ msg))

/-! ## Data model: errors, header mappings, URLs, timestamps -/

/-- Failure outcomes of the embedded operations.  The first three embed the
library exception taxonomy from the source (`MissingHeaderError`,
`InvalidDateError`, `InvalidSignatureError`); the rest embed Python built-in
exceptions: `KeyError` from a dict lookup, `ValueError` from tuple-unpacking
a split of the wrong arity, `dateutil` parser failures, and `TypeError` from
passing a non-string where a string is required. -/
inductive PyError where
  | missingHeader
  | invalidDate
  | invalidSignature
  | keyError (key : String)
  | valueError
  | parseError
  | typeError
deriving DecidableEq

/-- Membership of an error in the library's own exception taxonomy (the
subclasses of `AWS4Exception` in the source). -/
def isAWS4Error : PyError → Bool
  | .missingHeader => true
  | .invalidDate => true
  | .invalidSignature => true
  | _ => false

/-- Header value: a plain string, or a list of strings (the source accepts
both, joining list values with commas during canonicalization). -/
inductive HVal where
  | str (s : String)
  | list (vs : List String)
deriving DecidableEq

/-- Values of a header entry as a list, mirroring
`values if isinstance(values, (list, tuple)) else [values]`. -/
def HVal.toValues : HVal → List String
  | .str s => [s]
  | .list vs => vs

/-- A `multidict.CIMultiDict` of headers: an ordered multi-mapping with
case-insensitive keys, embedded as an association list in insertion order. -/
abbrev Headers := List (String × HVal)

/-- Case-insensitive lookup of the first matching entry, as
`CIMultiDict.__getitem__` / `.get`. -/
def getCI : Headers → String → Option HVal
  | [], _ => none
  | (k', v) :: rest, k => if pyLower k' = pyLower k then some v else getCI rest k

/-- All entries whose key matches case-insensitively. -/
def getAllCI (hs : Headers) (k : String) : List (String × HVal) :=
  hs.filter (fun p => pyLower p.1 == pyLower k)

/-- Drop all entries whose key matches case-insensitively. -/
def removeCI (hs : Headers) (k : String) : Headers :=
  hs.filter (fun p => pyLower p.1 != pyLower k)

/-- Embedding of `CIMultiDict.__setitem__`: replace the first
case-insensitive occurrence in place, drop any later occurrences, or append
a new entry at the end. -/
def setCI : Headers → String → HVal → Headers
  | [], k, v => [(k, v)]
  | (k', v') :: rest, k, v =>
    if pyLower k' = pyLower k then (k, v) :: removeCI rest k
    else (k', v') :: setCI rest k v

/-- Python `dict` insertion: overwrite in place if the key is present,
otherwise append. -/
def dictUpsert : List (String × String) → String → String → List (String × String)
  | [], k, v => [(k, v)]
  | (k', v') :: rest, k, v =>
    if k' = k then (k, v) :: rest else (k', v') :: dictUpsert rest k v

/-- Python `dict` lookup (case-sensitive). -/
def dictLookup : List (String × String) → String → Option String
  | [], _ => none
  | (k', v') :: rest, k => if k' = k then some v' else dictLookup rest k

/-- Parsed URL components, as produced by `urllib.parse.urlparse` (an
out-of-scope collaborator: URL parsing itself is not part of this system). -/
structure Url where
  scheme : String
  path : String
  query : Option String
deriving DecidableEq

/-- A challenge, mirroring the `Challenge` dataclass of the source. -/
structure Challenge where
  scope : String
  string_to_sign : String
  signature : String
  access_key_id : Option String := none
deriving DecidableEq

/-- A timezone-naive UTC instant with civil fields, the form every datetime
takes after `_to_utc` in the source (timezone conversion is performed by the
out-of-scope `datetime` collaborator before the fields are formatted). -/
structure DateTime where
  year : Nat
  month : Nat
  day : Nat
  hour : Nat
  minute : Nat
  second : Nat
deriving DecidableEq

/-- Zero-padded decimal rendering, as `strftime` field formatting. -/
def padNum (width n : Nat) : List Char :=
  List.replicate (width - (decDigits n).length) '0' ++ decDigits n

/-- Embedding of `to_amz_date`: format as `YYYYMMDDTHHMMSSZ`. -/
def to_amz_date (d : DateTime) : String :=
  ⟨padNum 4 d.year ++ padNum 2 d.month ++ padNum 2 d.day ++
    'T' :: (padNum 2 d.hour ++ padNum 2 d.minute ++ padNum 2 d.second) ++ ['Z']⟩

/-- Embedding of `to_signer_date`: format as `YYYYMMDD`. -/
def to_signer_date (d : DateTime) : String :=
  ⟨padNum 4 d.year ++ padNum 2 d.month ++ padNum 2 d.day⟩

/-- Decimal value of one digit character. -/
def parseDigit (c : Char) : Option Nat :=
  if 48 ≤ c.toNat ∧ c.toNat ≤ 57 then some (c.toNat - 48) else none

/-- Accumulating decimal parse of a digit list. -/
def digitsToNatAux : Nat → List Char → Option Nat
  | acc, [] => some acc
  | acc, c :: r =>
    match parseDigit c with
    | some d => digitsToNatAux (acc * 10 + d) r
    | none => none

/-- Decimal parse of a digit list. -/
def digitsToNat (l : List Char) : Option Nat :=
  digitsToNatAux 0 l

/-- Embedding of the `dateutil.parser.parse` collaborator on the AMZ date
format `YYYYMMDDTHHMMSSZ` that this library itself emits and consumes
(general-format date parsing is an out-of-scope collaborator; the drift
check only needs the parsed instant). -/
def parseAmzDate (s : String) : Option DateTime :=
  match s.data with
  | [y1, y2, y3, y4, mo1, mo2, d1, d2, t, h1, h2, mi1, mi2, se1, se2, z] =>
    if t = 'T' ∧ z = 'Z' then
      match digitsToNat [y1, y2, y3, y4], digitsToNat [mo1, mo2],
        digitsToNat [d1, d2], digitsToNat [h1, h2], digitsToNat [mi1, mi2],
        digitsToNat [se1, se2] with
      | some y, some mo, some d, some h, some mi, some se =>
        if 1 ≤ y ∧ 1 ≤ mo ∧ mo ≤ 12 ∧ 1 ≤ d ∧ d ≤ 31 ∧ h ≤ 23 ∧ mi ≤ 59 ∧ se ≤ 59
        then some ⟨y, mo, d, h, mi, se⟩ else none
      | _, _, _, _, _, _ => none
    else none
  | _ => none

/-- Days since 0000-03-01 of a civil date (valid for year at least 1), the
standard era-based conversion. -/
def daysFromCivil (y m d : Nat) : Nat :=
  let y' := if m ≤ 2 then y - 1 else y
  let era := y' / 400
  let yoe := y' % 400
  let mp := if 2 < m then m - 3 else m + 9
  let doy := (153 * mp + 2) / 5 + d - 1
  let doe := yoe * 365 + yoe / 4 - yoe / 100 + doy
  era * 146097 + doe

/-- Seconds on a linear timeline of a naive UTC instant; only differences of
this quantity are ever used (for the drift check). -/
def toSec (t : DateTime) : Nat :=
  daysFromCivil t.year t.month t.day * 86400 +
    t.hour * 3600 + t.minute * 60 + t.second

/-- Absolute difference in seconds between two instants, embedding
`abs((now - header).total_seconds())` at whole-second resolution. -/
def driftSeconds (a b : DateTime) : Nat :=
  ((toSec a : Int) - (toSec b : Int)).natAbs

/-! ## Embedded pipeline from `src/aws4/__init__.py` -/

/-- Embedding of `sha256_hash` on request content (`bytes | None`): an
absent payload hashes as the empty byte string (`data = data or b""`). -/
def sha256_hash (data : Option (List Nat)) : String :=
  hexOfBytes (sha256Bytes (data.getD []))

/-- Embedding of `sha256_hash` applied to a string (the canonical request),
which the source UTF-8-encodes first. -/
def sha256_hash_str (data : String) : String :=
  hexOfBytes (sha256Bytes (utf8Bytes data))

/-- Uppercase hexadecimal digit, for percent-encoding. -/
def hexDigitUpper (n : Nat) : Char :=
  "0123456789ABCDEF".data.getD n '0'

/-- Bytes that `urllib.parse.quote(·, safe="/")` leaves unencoded: ASCII
letters, digits, `_.-~` and the safe character `/`. -/
def quoteSafeByte (b : Nat) : Bool :=
  (65 ≤ b && b ≤ 90) || (97 ≤ b && b ≤ 122) || (48 ≤ b && b ≤ 57) ||
    b == 95 || b == 46 || b == 45 || b == 126 || b == 47

/-- Percent-encoding of one byte. -/
def quoteByte (b : Nat) : List Char :=
  if quoteSafeByte b then [Char.ofNat b]
  else ['%', hexDigitUpper (b / 16 % 16), hexDigitUpper (b % 16)]

/-- The `.replace("%7E", "~")` step of `_quote`. -/
def replace7E : List Char → List Char
  | '%' :: '7' :: 'E' :: rest => '~' :: replace7E rest
  | c :: rest => c :: replace7E rest
  | [] => []

/-- Embedding of `_quote`: percent-encode with `/` safe, then restore
tildes. -/
def _quote (resource : String) : String :=
  ⟨replace7E ((utf8Bytes resource).flatMap quoteByte)⟩

/-- Embedding of the per-header value normalization shared by both
canonicalizers: collapse space runs in each value and join multiple values
with commas. -/
def canonicalValue (v : HVal) : String :=
  pyJoinChar ',' (v.toValues.map multiSpaceSub)

/-- The header names excluded from full-mode canonicalization. -/
def excludedHeaders : List String :=
  ["authorization", "user-agent", "accept", "accept-encoding", "connection"]

/-- The dictionary-building loop shared by `_generate_canonical_headers`
and `_recreate_canonical_headers`: iterate the header mapping in order,
keep entries whose lowercased name satisfies the mode's predicate, and
upsert `lowercased name -> normalized value` into a Python dict. -/
def buildDict (p : String → Bool) : Headers → List (String × String) → List (String × String)
  | [], d => d
  | (k, v) :: rest, d =>
    buildDict p rest (if p (pyLower k) then dictUpsert d (pyLower k) (canonicalValue v) else d)

/-- Embedding of `_generate_canonical_headers`: the canonical header block
and the signed-header list, from all headers except the excluded five. -/
def _generate_canonical_headers (headers : Headers) : String × String :=
  let entries := pySorted pairLe (buildDict (fun k => !(excludedHeaders.contains k)) headers [])
  (pyJoinChar '\n' (entries.map fun e => e.1 ++ ":" ++ e.2),
   pyJoinChar ';' (entries.map Prod.fst))

/-- Embedding of `_recreate_canonical_headers`: the canonical header block
restricted to the semicolon-separated `signed_headers` names. -/
def _recreate_canonical_headers (headers : Headers) (signed_headers : String) : String :=
  let shl := (splitChar ';' signed_headers.data).map String.mk
  let entries := pySorted pairLe (buildDict (fun k => shl.contains k) headers [])
  pyJoinChar '\n' (entries.map fun e => e.1 ++ ":" ++ e.2)

/-- Embedding of `_generate_canonical_query_string`: split the raw query on
ampersands, split every pair on every equals sign, sort the component
lists, and rejoin. -/
def _generate_canonical_query_string (query : Option String) : String :=
  let q := query.getD ""
  pyJoinChar '&'
    ((pySorted strListLe
        ((splitChar '&' q.data).map fun p => (splitChar '=' p).map String.mk)).map
      fun pair => pyJoinChar '=' pair)

/-- Embedding of `_generate_canonical_request_hash`: hash of the canonical
request string, together with the signed-header list. -/
def _generate_canonical_request_hash (method : String) (url : Url)
    (headers : Headers) (content_sha256 : String) : String × String :=
  let ch := _generate_canonical_headers headers
  let canonical_query_string := _generate_canonical_query_string url.query
  let path := _quote (if url.path = "" then "/" else url.path)
  (sha256_hash_str (method ++ "\n" ++ path ++ "\n" ++ canonical_query_string ++
    "\n" ++ ch.1 ++ "\n\n" ++ ch.2 ++ "\n" ++ content_sha256), ch.2)

/-- Embedding of `_recreate_canonical_request_hash`: as above but with the
header set restricted to the supplied signed-header names. -/
def _recreate_canonical_request_hash (method : String) (url : Url)
    (headers : Headers) (signed_headers : String) (content_sha256 : String) : String :=
  let canonical_headers := _recreate_canonical_headers headers signed_headers
  let canonical_query_string := _generate_canonical_query_string url.query
  let path := _quote (if url.path = "" then "/" else url.path)
  sha256_hash_str (method ++ "\n" ++ path ++ "\n" ++ canonical_query_string ++
    "\n" ++ canonical_headers ++ "\n\n" ++ signed_headers ++ "\n" ++ content_sha256)

/-- Embedding of `_parse_authorization`: partition on the first space, split
the credentials on comma-space, partition each part on the first equals
sign into a dict with lowercased keys, then look up the three required
keys; a missing key raises Python `KeyError`, not a library error. -/
def _parse_authorization (authorization : String) :
    Except PyError (String × String × String × String) :=
  let pt := pyPartitionChar ' ' authorization
  let parts := pySplitCommaSpace pt.2.2
  let data := parts.foldl
    (fun d part =>
      let pe := pyPartitionChar '=' part
      dictUpsert d (pyLower pe.1) pe.2.2) []
  match dictLookup data "credential" with
  | none => .error (.keyError "credential")
  | some credential =>
    match dictLookup data "signedheaders" with
    | none => .error (.keyError "signedheaders")
    | some signed_headers =>
      match dictLookup data "signature" with
      | none => .error (.keyError "signature")
      | some signature => .ok (pt.1, credential, signed_headers, signature)

/-- Embedding of `_parse_key_date`: read `x-amz-date` (MissingHeaderError
if absent), parse it, and reject a drift of strictly more than five seconds
from the ambient current time with InvalidDateError.  The current time is
an explicit parameter of the embedding. -/
def _parse_key_date (headers : Headers) (now : DateTime) : Except PyError String :=
  match getCI headers "x-amz-date" with
  | none => .error .missingHeader
  | some (.list _) => .error .typeError
  | some (.str key_date) =>
    match parseAmzDate key_date with
    | none => .error .parseError
    | some header =>
      if 5 < driftSeconds now header then .error .invalidDate
      else .ok key_date

/-- Embedding of `generate_signing_key`: the four-step HMAC-SHA256 chain
date, region, service, literal `aws4_request`, keyed from
`"AWS4" + secret`. -/
def generate_signing_key (secret_access_key date region service_name : String) :
    List Nat :=
  let date_key := hmacSha256 (utf8Bytes ("AWS4" ++ secret_access_key)) (utf8Bytes date)
  let date_region_key := hmacSha256 date_key (utf8Bytes region)
  let date_region_service_key := hmacSha256 date_region_key (utf8Bytes service_name)
  hmacSha256 date_region_service_key (utf8Bytes "aws4_request")

/-- Embedding of `generate_signature`: hex HMAC-SHA256 of the
string-to-sign under the signing key. -/
def generate_signature (signing_key : List Nat) (string_to_sign : String) : String :=
  hexOfBytes (hmacSha256 signing_key (utf8Bytes string_to_sign))

/-- Embedding of `validate_challenge`: re-split the scope, re-derive the
signing key and signature, and raise InvalidSignatureError exactly on
mismatch.  A scope that does not split into exactly four slash-separated
segments makes the tuple unpacking raise Python `ValueError`. -/
def validate_challenge (challenge : Challenge) (secret_access_key : String) :
    Except PyError Unit :=
  match (pySplitChar '/' challenge.scope).dropLast with
  | [date, region, service_name] =>
    let signing_key := generate_signing_key secret_access_key date region service_name
    let signature' := generate_signature signing_key challenge.string_to_sign
    if signature' ≠ challenge.signature then .error .invalidSignature else .ok ()
  | _ => .error .valueError

/-- Embedding of `generate_challenge`: parse the Authorization header,
determine the content hash from the `x-amz-content-sha256` header, split
the credential, check the date header for drift, re-derive the canonical
request hash from the signed headers, and build the challenge. -/
def generate_challenge (method : String) (url : Url) (headers : Headers)
    (content : Option (List Nat)) (now : DateTime) : Except PyError Challenge :=
  match getCI headers "Authorization" with
  | none => .error (.keyError "Authorization")
  | some (.list _) => .error .typeError
  | some (.str authorization) =>
    match _parse_authorization authorization with
    | .error e => .error e
    | .ok (auth_type, credential, signed_headers, signature) =>
      let content_sha256 :=
        match getCI headers "x-amz-content-sha256" with
        | some (.str v) =>
          if v ≠ "UNSIGNED-PAYLOAD" then sha256_hash content else "UNSIGNED-PAYLOAD"
        | some (.list _) => sha256_hash content
        | none => "UNSIGNED-PAYLOAD"
      let pc := pyPartitionChar '/' credential
      if pc.2.1 then
        let access_key_id := pc.1
        let scope := pc.2.2
        match (pySplitChar '/' scope).dropLast with
        | [_date, _region, _service_name] =>
          match _parse_key_date headers now with
          | .error e => .error e
          | .ok key_date =>
            let canonical_request_hash :=
              _recreate_canonical_request_hash method url headers signed_headers content_sha256
            .ok ⟨scope,
              auth_type ++ "\n" ++ key_date ++ "\n" ++ scope ++ "\n" ++ canonical_request_hash,
              signature, some access_key_id⟩
        | _ => .error .valueError
      else .error .valueError

/-- The content hash `sign_request` computes in its first step: hash the
body over plain http, the unsigned-payload sentinel otherwise. -/
def signRequestContentSha (url : Url) (content : Option (List Nat)) : String :=
  if url.scheme = "http" then sha256_hash content else "UNSIGNED-PAYLOAD"

/-- The header mapping after `sign_request` conditionally injects
`x-amz-content-sha256` (only when no such entry exists). -/
def signRequestHeaders1 (url : Url) (headers : Headers)
    (content : Option (List Nat)) : Headers :=
  if (getCI headers "x-amz-content-sha256").isNone
  then setCI headers "x-amz-content-sha256" (.str (signRequestContentSha url content))
  else headers

/-- The scope string `sign_request` builds. -/
def signRequestScope (service_name region : String) (date : DateTime) : String :=
  to_signer_date date ++ "/" ++ region ++ "/" ++ service_name ++ "/aws4_request"

/-- The string-to-sign `sign_request` builds. -/
def signRequestStringToSign (service_name method : String) (url : Url)
    (region : String) (headers : Headers) (content : Option (List Nat))
    (date : DateTime) : String :=
  "AWS4-HMAC-SHA256\n" ++ to_amz_date date ++ "\n" ++
    signRequestScope service_name region date ++ "\n" ++
    (_generate_canonical_request_hash method url
      (signRequestHeaders1 url headers content) (signRequestContentSha url content)).1

/-- The signature `sign_request` computes. -/
def signRequestSignature (service_name method : String) (url : Url)
    (region : String) (headers : Headers) (content : Option (List Nat))
    (secret_access_key : String) (date : DateTime) : String :=
  generate_signature
    (generate_signing_key secret_access_key (to_signer_date date) region service_name)
    (signRequestStringToSign service_name method url region headers content date)

/-- The Authorization header value `sign_request` injects. -/
def signRequestAuthValue (service_name method : String) (url : Url)
    (region : String) (headers : Headers) (content : Option (List Nat))
    (access_key_id secret_access_key : String) (date : DateTime) : String :=
  "AWS4-HMAC-SHA256 Credential=" ++ access_key_id ++ "/" ++
    signRequestScope service_name region date ++ ", SignedHeaders=" ++
    (_generate_canonical_request_hash method url
      (signRequestHeaders1 url headers content) (signRequestContentSha url content)).2 ++
    ", Signature=" ++
    signRequestSignature service_name method url region headers content
      secret_access_key date

/-- Embedding of `sign_request`: conditionally inject the content hash
header, then set the Authorization header to the computed value, returning
the updated mapping. -/
def sign_request (service_name method : String) (url : Url) (region : String)
    (headers : Headers) (content : Option (List Nat))
    (access_key_id secret_access_key : String) (date : DateTime) : Headers :=
  setCI (signRequestHeaders1 url headers content) "Authorization"
    (.str (signRequestAuthValue service_name method url region headers content
      access_key_id secret_access_key date))

/-! ## Claim-support definitions -/

/-- Whether a character list is free of two adjacent spaces. -/
def noDoubleSpace : List Char → Bool
  | [] => true
  | [_] => true
  | a :: b :: rest => if a = ' ' ∧ b = ' ' then false else noDoubleSpace (b :: rest)

/-- Whether a string is free of two adjacent spaces. -/
def noDoubleSpaceStr (s : String) : Bool :=
  noDoubleSpace s.data

/-- The lowercased, sorted signed-header name list produced by full-mode
canonicalization (the keys of the sorted canonical dictionary). -/
def canonicalHeaderNames (headers : Headers) : List String :=
  (pySorted pairLe (buildDict (fun k => !(excludedHeaders.contains k)) headers [])).map Prod.fst

/-- The key-value dictionary `_parse_authorization` builds from the
credentials part of the Authorization header. -/
def authDataDict (authorization : String) : List (String × String) :=
  (pySplitCommaSpace (pyPartitionChar ' ' authorization).2.2).foldl
    (fun d part =>
      let pe := pyPartitionChar '=' part
      dictUpsert d (pyLower pe.1) pe.2.2) []

/-- Modelled from the claim wording, for refinement comparison only: sort
the query pairs by the raw un-percent-encoded `name=value` pair string as a
whole, rather than by the equals-split component lists the code sorts by. -/
def claimCanonicalQueryString (query : Option String) : String :=
  let q := query.getD ""
  pyJoinChar '&' (pySorted (cmpLe cmpStr) ((splitChar '&' q.data).map String.mk))

theorem char_toNat_inj {a b : Char} (h : a.toNat = b.toNat) : a = b :=
  Char.eq_of_val_eq (UInt32.ext h)

theorem cmpChar_eq_iff (a b : Char) : cmpChar a b = .eq ↔ a = b := by
  unfold cmpChar
  constructor
  · intro h
    split at h
    · exact absurd h (by simp)
    · split at h
      · exact absurd h (by simp)
      · exact char_toNat_inj (by omega)
  · rintro rfl
    simp

theorem cmpChar_swap (a b : Char) : cmpChar a b = .gt ↔ cmpChar b a = .lt := by
  unfold cmpChar
  rcases Nat.lt_trichotomy a.toNat b.toNat with h | h | h <;>
    simp [h, Nat.lt_asymm, Nat.lt_irrefl] <;> omega

theorem cmpChar_lt_trans {a b c : Char} (h1 : cmpChar a b = .lt)
    (h2 : cmpChar b c = .lt) : cmpChar a c = .lt := by
  unfold cmpChar at *
  split at h1 <;> split at h2 <;> simp_all <;> omega

theorem cmpChar_refl (a : Char) : cmpChar a a = .eq := by
  simp [cmpChar]

theorem cmpLex_eq_iff (cmp : α → α → Ordering)
    (heq : ∀ a b, cmp a b = .eq ↔ a = b) :
    ∀ a b : List α, cmpLex cmp a b = .eq ↔ a = b := by
  intro a
  induction a with
  | nil => intro b; cases b <;> simp [cmpLex]
  | cons x xs ih =>
    intro b
    cases b with
    | nil => simp [cmpLex]
    | cons y ys =>
      simp only [cmpLex]
      rcases h : cmp x y with h' | h' | h'
      · simp only [h]
        constructor
        · intro hab; exact absurd hab (by simp)
        · intro hab
          obtain ⟨rfl, rfl⟩ := by simpa using hab
          rw [(heq x x).2 rfl] at h; exact absurd h (by simp)
      · simp only [h]
        have hx : x = y := (heq x y).1 h
        subst hx
        rw [ih ys]
        simp
      · simp only [h]
        constructor
        · intro hab; exact absurd hab (by simp)
        · intro hab
          obtain ⟨rfl, rfl⟩ := by simpa using hab
          rw [(heq x x).2 rfl] at h; exact absurd h (by simp)

theorem cmpLex_swap (cmp : α → α → Ordering)
    (heq : ∀ a b, cmp a b = .eq ↔ a = b)
    (hswap : ∀ a b, cmp a b = .gt ↔ cmp b a = .lt) :
    ∀ a b : List α, cmpLex cmp a b = .gt ↔ cmpLex cmp b a = .lt := by
  intro a
  induction a with
  | nil => intro b; cases b <;> simp [cmpLex]
  | cons x xs ih =>
    intro b
    cases b with
    | nil => simp [cmpLex]
    | cons y ys =>
      simp only [cmpLex]
      rcases h : cmp x y with h' | h' | h'
      · have h2 : cmp y x = .gt := (hswap y x).2 h
        simp [h2]
      · have hx : x = y := (heq x y).1 h
        subst hx
        have h2 : cmp x x = .eq := (heq x x).2 rfl
        simp only [h2]
        exact ih ys
      · have h2 : cmp y x = .lt := (hswap x y).1 h
        simp [h2]

theorem cmpLex_cons_lt {cmp : α → α → Ordering} {x y : α} {xs ys : List α}
    (h : cmp x y = .lt) : cmpLex cmp (x :: xs) (y :: ys) = .lt := by
  simp [cmpLex, h]

theorem cmpLex_cons_gt {cmp : α → α → Ordering} {x y : α} {xs ys : List α}
    (h : cmp x y = .gt) : cmpLex cmp (x :: xs) (y :: ys) = .gt := by
  simp [cmpLex, h]

theorem cmpLex_cons_eq {cmp : α → α → Ordering} {x y : α} {xs ys : List α}
    (h : cmp x y = .eq) :
    cmpLex cmp (x :: xs) (y :: ys) = cmpLex cmp xs ys := by
  simp [cmpLex, h]

theorem cmpLex_lt_trans (cmp : α → α → Ordering)
    (heq : ∀ a b, cmp a b = .eq ↔ a = b)
    (htrans : ∀ a b c, cmp a b = .lt → cmp b c = .lt → cmp a c = .lt) :
    ∀ a b c : List α, cmpLex cmp a b = .lt → cmpLex cmp b c = .lt →
      cmpLex cmp a c = .lt := by
  intro a
  induction a with
  | nil =>
    intro b c hab hbc
    cases c with
    | nil =>
      cases b with
      | nil => exact hab
      | cons y ys => simp [cmpLex] at hbc
    | cons z zs => simp [cmpLex]
  | cons x xs ih =>
    intro b c hab hbc
    cases b with
    | nil => simp [cmpLex] at hab
    | cons y ys =>
      cases c with
      | nil => simp [cmpLex] at hbc
      | cons z zs =>
        rcases hxy : cmp x y with h' | h' | h'
        · rcases hyz : cmp y z with h'' | h'' | h''
          · exact cmpLex_cons_lt (htrans x y z hxy hyz)
          · have hy : y = z := (heq y z).1 hyz
            subst hy
            exact cmpLex_cons_lt hxy
          · rw [cmpLex_cons_gt hyz] at hbc
            exact absurd hbc (by simp)
        · have hx : x = y := (heq x y).1 hxy
          subst hx
          rw [cmpLex_cons_eq hxy] at hab
          rcases hyz : cmp x z with h'' | h'' | h''
          · exact cmpLex_cons_lt hyz
          · have hy : x = z := (heq x z).1 hyz
            subst hy
            rw [cmpLex_cons_eq hyz] at hbc
            rw [cmpLex_cons_eq hyz]
            exact ih ys zs hab hbc
          · rw [cmpLex_cons_gt hyz] at hbc
            exact absurd hbc (by simp)
        · rw [cmpLex_cons_gt hxy] at hab
          exact absurd hab (by simp)

theorem string_data_inj {a b : String} (h : a.data = b.data) : a = b := by
  cases a; cases b; exact congrArg String.mk h

theorem cmpStr_eq_iff (a b : String) : cmpStr a b = .eq ↔ a = b := by
  unfold cmpStr
  rw [cmpLex_eq_iff cmpChar cmpChar_eq_iff]
  exact ⟨fun h => string_data_inj h, fun h => by rw [h]⟩

theorem cmpStr_swap (a b : String) : cmpStr a b = .gt ↔ cmpStr b a = .lt :=
  cmpLex_swap cmpChar cmpChar_eq_iff cmpChar_swap a.data b.data

theorem cmpStr_lt_trans {a b c : String} (h1 : cmpStr a b = .lt)
    (h2 : cmpStr b c = .lt) : cmpStr a c = .lt :=
  cmpLex_lt_trans cmpChar cmpChar_eq_iff (fun _ _ _ => cmpChar_lt_trans)
    a.data b.data c.data h1 h2

theorem cmpStrList_eq_iff (a b : List String) : cmpStrList a b = .eq ↔ a = b :=
  cmpLex_eq_iff cmpStr cmpStr_eq_iff a b

theorem cmpStrList_swap (a b : List String) :
    cmpStrList a b = .gt ↔ cmpStrList b a = .lt :=
  cmpLex_swap cmpStr cmpStr_eq_iff cmpStr_swap a b

theorem cmpStrList_lt_trans {a b c : List String} (h1 : cmpStrList a b = .lt)
    (h2 : cmpStrList b c = .lt) : cmpStrList a c = .lt :=
  cmpLex_lt_trans cmpStr cmpStr_eq_iff (fun _ _ _ => cmpStr_lt_trans) a b c h1 h2

theorem cmpPair_eq_iff (a b : String × String) : cmpPair a b = .eq ↔ a = b := by
  unfold cmpPair
  rcases h : cmpStr a.1 b.1 with h' | h' | h'
  · constructor
    · intro hc; exact absurd hc (by simp)
    · rintro rfl; rw [(cmpStr_eq_iff a.1 a.1).2 rfl] at h; exact absurd h (by simp)
  · have := (cmpStr_eq_iff a.1 b.1).1 h
    rw [cmpStr_eq_iff]
    constructor
    · intro h2; exact Prod.ext_iff.2 ⟨this, h2⟩
    · intro h2; exact (Prod.ext_iff.1 h2).2
  · constructor
    · intro hc; exact absurd hc (by simp)
    · rintro rfl; rw [(cmpStr_eq_iff a.1 a.1).2 rfl] at h; exact absurd h (by simp)

theorem cmpPair_swap (a b : String × String) :
    cmpPair a b = .gt ↔ cmpPair b a = .lt := by
  unfold cmpPair
  rcases h : cmpStr a.1 b.1 with h' | h' | h'
  · have h2 : cmpStr b.1 a.1 = .gt := (cmpStr_swap b.1 a.1).2 h
    simp [h2]
  · have hx : a.1 = b.1 := (cmpStr_eq_iff a.1 b.1).1 h
    have h2 : cmpStr b.1 a.1 = .eq := (cmpStr_eq_iff b.1 a.1).2 hx.symm
    simp only [h2]
    exact cmpStr_swap a.2 b.2
  · have h2 : cmpStr b.1 a.1 = .lt := (cmpStr_swap a.1 b.1).1 h
    simp [h2]

theorem cmpPair_fst_lt {a b : String × String} (h : cmpStr a.1 b.1 = .lt) :
    cmpPair a b = .lt := by
  simp [cmpPair, h]

theorem cmpPair_fst_gt {a b : String × String} (h : cmpStr a.1 b.1 = .gt) :
    cmpPair a b = .gt := by
  simp [cmpPair, h]

theorem cmpPair_fst_eq {a b : String × String} (h : cmpStr a.1 b.1 = .eq) :
    cmpPair a b = cmpStr a.2 b.2 := by
  simp [cmpPair, h]

theorem cmpPair_lt_trans {a b c : String × String} (h1 : cmpPair a b = .lt)
    (h2 : cmpPair b c = .lt) : cmpPair a c = .lt := by
  rcases hab : cmpStr a.1 b.1 with h' | h' | h' <;>
    rcases hbc : cmpStr b.1 c.1 with h'' | h'' | h''
  · exact cmpPair_fst_lt (cmpStr_lt_trans hab hbc)
  · have hx : b.1 = c.1 := (cmpStr_eq_iff b.1 c.1).1 hbc
    exact cmpPair_fst_lt (hx ▸ hab)
  · rw [cmpPair_fst_gt hbc] at h2
    exact absurd h2 (by simp)
  · have hx : a.1 = b.1 := (cmpStr_eq_iff a.1 b.1).1 hab
    exact cmpPair_fst_lt (hx ▸ hbc)
  · have hx : a.1 = b.1 := (cmpStr_eq_iff a.1 b.1).1 hab
    have hy : b.1 = c.1 := (cmpStr_eq_iff b.1 c.1).1 hbc
    rw [cmpPair_fst_eq hab] at h1
    rw [cmpPair_fst_eq hbc] at h2
    have hac : cmpStr a.1 c.1 = .eq := (cmpStr_eq_iff a.1 c.1).2 (hx.trans hy)
    rw [cmpPair_fst_eq hac]
    exact cmpStr_lt_trans h1 h2
  · rw [cmpPair_fst_gt hbc] at h2
    exact absurd h2 (by simp)
  · rw [cmpPair_fst_gt hab] at h1
    exact absurd h1 (by simp)
  · rw [cmpPair_fst_gt hab] at h1
    exact absurd h1 (by simp)
  · rw [cmpPair_fst_gt hab] at h1
    exact absurd h1 (by simp)

theorem pyInsert_perm (le : α → α → Bool) (x : α) (l : List α) :
    List.Perm (pyInsert le x l) (x :: l) := by
  induction l with
  | nil => rfl
  | cons y ys ih =>
    unfold pyInsert
    split
    · rfl
    · exact (ih.cons y).trans (List.Perm.swap x y ys)

theorem pySorted_perm (le : α → α → Bool) (l : List α) :
    List.Perm (pySorted le l) l := by
  induction l with
  | nil => rfl
  | cons x xs ih =>
    exact (pyInsert_perm le x (pySorted le xs)).trans (ih.cons x)

theorem pyInsert_pairwise (le : α → α → Bool)
    (htot : ∀ a b, le a b = true ∨ le b a = true)
    (htrans : ∀ a b c, le a b = true → le b c = true → le a c = true)
    (x : α) (l : List α) (h : List.Pairwise (fun a b => le a b = true) l) :
    List.Pairwise (fun a b => le a b = true) (pyInsert le x l) := by
  induction l with
  | nil => simp [pyInsert]
  | cons y ys ih =>
    rcases h with _ | ⟨hy, hys⟩
    unfold pyInsert
    by_cases hxy : le x y = true
    · rw [if_pos hxy]
      refine List.Pairwise.cons ?_ (List.Pairwise.cons hy hys)
      intro b hb
      rcases List.mem_cons.1 hb with rfl | hb'
      · exact hxy
      · exact htrans x y b hxy (hy b hb')
    · rw [if_neg hxy]
      have hyx : le y x = true := (htot x y).resolve_left hxy
      refine List.Pairwise.cons ?_ (ih hys)
      intro b hb
      rcases List.mem_cons.1 ((pyInsert_perm le x ys).mem_iff.1 hb) with rfl | hb'
      · exact hyx
      · exact hy b hb'

theorem pySorted_pairwise (le : α → α → Bool)
    (htot : ∀ a b, le a b = true ∨ le b a = true)
    (htrans : ∀ a b c, le a b = true → le b c = true → le a c = true)
    (l : List α) :
    List.Pairwise (fun a b => le a b = true) (pySorted le l) := by
  induction l with
  | nil => simp [pySorted]
  | cons x xs ih => exact pyInsert_pairwise le htot htrans x (pySorted le xs) ih

theorem cmpLe_total (cmp : α → α → Ordering)
    (heq : ∀ a b, cmp a b = .eq ↔ a = b)
    (hswap : ∀ a b, cmp a b = .gt ↔ cmp b a = .lt) (a b : α) :
    cmpLe cmp a b = true ∨ cmpLe cmp b a = true := by
  unfold cmpLe
  rcases h : cmp a b with h' | h' | h'
  · left; simp
  · left; simp
  · right
    have := (hswap a b).1 h
    simp [this]

theorem cmpLe_trans (cmp : α → α → Ordering)
    (heq : ∀ a b, cmp a b = .eq ↔ a = b)
    (hswap : ∀ a b, cmp a b = .gt ↔ cmp b a = .lt)
    (htrans : ∀ a b c, cmp a b = .lt → cmp b c = .lt → cmp a c = .lt)
    (a b c : α) (h1 : cmpLe cmp a b = true) (h2 : cmpLe cmp b c = true) :
    cmpLe cmp a c = true := by
  unfold cmpLe at *
  rcases hab : cmp a b with h' | h' | h'
  · rcases hbc : cmp b c with h'' | h'' | h''
    · simp [htrans a b c hab hbc]
    · have := (heq b c).1 hbc
      subst this
      simp [hab]
    · rw [hbc] at h2; exact absurd h2 (by simp)
  · have := (heq a b).1 hab
    subst this
    exact h2
  · rw [hab] at h1; exact absurd h1 (by simp)

theorem pairLe_total (a b : String × String) :
    pairLe a b = true ∨ pairLe b a = true :=
  cmpLe_total cmpPair cmpPair_eq_iff cmpPair_swap a b

theorem pairLe_trans (a b c : String × String) (h1 : pairLe a b = true)
    (h2 : pairLe b c = true) : pairLe a c = true :=
  cmpLe_trans cmpPair cmpPair_eq_iff cmpPair_swap
    (fun _ _ _ => cmpPair_lt_trans) a b c h1 h2

theorem strListLe_total (a b : List String) :
    strListLe a b = true ∨ strListLe b a = true :=
  cmpLe_total cmpStrList cmpStrList_eq_iff cmpStrList_swap a b

theorem strListLe_trans (a b c : List String) (h1 : strListLe a b = true)
    (h2 : strListLe b c = true) : strListLe a c = true :=
  cmpLe_trans cmpStrList cmpStrList_eq_iff cmpStrList_swap
    (fun _ _ _ => cmpStrList_lt_trans) a b c h1 h2

theorem pyLowerChar_toNat (c : Char) :
    (pyLowerChar c).toNat = c.toNat ∨
      ((pyLowerChar c).toNat = c.toNat + 32 ∧ 65 ≤ c.toNat ∧ c.toNat ≤ 90) := by
  unfold pyLowerChar
  split
  · right
    rename_i h
    refine ⟨?_, h.1, h.2⟩
    show (c.val + 32).toNat = c.toNat + 32
    rw [UInt32.toNat_add]
    have h32 : (32 : UInt32).toNat = 32 := rfl
    have hsz : UInt32.size = 4294967296 := rfl
    have hct : c.toNat = c.val.toNat := rfl
    rw [h32, hsz, hct]
    have h2 := h.2
    rw [hct] at h2
    omega
  · left; rfl

/-- Lowercasing can only produce a character that is a basic latin lowercase
letter or the original character itself. -/
theorem pyLowerChar_ne {c x : Char} (hx : ¬(97 ≤ x.toNat ∧ x.toNat ≤ 122))
    (hc : c ≠ x) : pyLowerChar c ≠ x := by
  intro he
  rcases pyLowerChar_toNat c with h | ⟨h, h1, h2⟩
  · rw [he] at h
    exact hc (char_toNat_inj h.symm)
  · rw [he] at h
    exact hx ⟨by omega, by omega⟩

theorem getD_default_or_mem (l : List Char) (d : Char) (n : Nat) :
    l.getD n d = d ∨ l.getD n d ∈ l := by
  induction l generalizing n with
  | nil => left; rfl
  | cons x xs ih =>
    cases n with
    | zero => right; simp [List.getD]
    | succ m =>
      have : (x :: xs).getD (m + 1) d = xs.getD m d := by simp [List.getD]
      rw [this]
      rcases ih m with h | h
      · left; exact h
      · right; exact List.mem_cons_of_mem x h

theorem digitChar_mem (n : Nat) : digitChar n ∈ "0123456789".data := by
  unfold digitChar
  rcases getD_default_or_mem "0123456789".data '0' n with h | h
  · rw [h]; decide
  · exact h

theorem hexDigitChar_mem (n : Nat) : hexDigitChar n ∈ "0123456789abcdef".data := by
  unfold hexDigitChar
  rcases getD_default_or_mem "0123456789abcdef".data '0' n with h | h
  · rw [h]; decide
  · exact h

theorem decDigitsAux_subset_digits (fuel n : Nat) :
    ∀ c ∈ decDigitsAux fuel n, c ∈ "0123456789".data := by
  induction fuel generalizing n with
  | zero => intro c hc; simp [decDigitsAux] at hc
  | succ f ih =>
    intro c hc
    unfold decDigitsAux at hc
    split at hc
    · rcases List.mem_singleton.1 hc with rfl
      exact digitChar_mem n
    · rcases List.mem_append.1 hc with h | h
      · exact ih (n / 10) c h
      · rcases List.mem_singleton.1 h with rfl
        exact digitChar_mem (n % 10)

theorem decDigits_subset_digits (n : Nat) :
    ∀ c ∈ decDigits n, c ∈ "0123456789".data :=
  decDigitsAux_subset_digits (n + 1) n

theorem splitChar_ne_nil (c : Char) (l : List Char) : splitChar c l ≠ [] := by
  cases l with
  | nil => simp [splitChar]
  | cons x rest =>
    unfold splitChar
    split
    · simp
    · split <;> simp

theorem splitCommaSpace_ne_nil (l : List Char) : splitCommaSpace l ≠ [] := by
  unfold splitCommaSpace
  split
  · simp
  · simp
  · split
    · simp
    · split <;> simp

theorem splitChar_no_sep {c : Char} {a : List Char} (h : c ∉ a) :
    splitChar c a = [a] := by
  induction a with
  | nil => rfl
  | cons x rest ih =>
    have hx : x ≠ c := fun he => h (he ▸ List.mem_cons_self x rest)
    have hr : c ∉ rest := fun hm => h (List.mem_cons_of_mem x hm)
    unfold splitChar
    rw [if_neg hx, ih hr]

theorem splitChar_append_sep {c : Char} {a b : List Char} (h : c ∉ a) :
    splitChar c (a ++ c :: b) = a :: splitChar c b := by
  induction a with
  | nil =>
    simp only [List.nil_append]
    generalize hb : splitChar c b = R
    unfold splitChar
    rw [if_pos rfl, hb]
  | cons x a' ih =>
    have hx : x ≠ c := fun he => h (he ▸ List.mem_cons_self x a')
    have ha : c ∉ a' := fun hm => h (List.mem_cons_of_mem x hm)
    have iha := ih ha
    simp only [List.cons_append]
    generalize hb : splitChar c b = R
    rw [hb] at iha
    unfold splitChar
    rw [if_neg hx, iha]

theorem partitionChar_no_sep {c : Char} {a : List Char} (h : c ∉ a) :
    partitionChar c a = (a, false, []) := by
  induction a with
  | nil => rfl
  | cons x rest ih =>
    have hx : x ≠ c := fun he => h (he ▸ List.mem_cons_self x rest)
    have hr : c ∉ rest := fun hm => h (List.mem_cons_of_mem x hm)
    unfold partitionChar
    rw [if_neg hx, ih hr]

theorem partitionChar_append_sep {c : Char} {a b : List Char} (h : c ∉ a) :
    partitionChar c (a ++ c :: b) = (a, true, b) := by
  induction a with
  | nil =>
    simp only [List.nil_append]
    unfold partitionChar
    rw [if_pos rfl]
  | cons x a' ih =>
    have hx : x ≠ c := fun he => h (he ▸ List.mem_cons_self x a')
    have ha : c ∉ a' := fun hm => h (List.mem_cons_of_mem x hm)
    simp only [List.cons_append]
    unfold partitionChar
    rw [if_neg hx, ih ha]

theorem joinChar_cons {c : Char} {g : List Char} {gs : List (List Char)}
    (h : gs ≠ []) : joinChar c (g :: gs) = g ++ c :: joinChar c gs := by
  cases gs with
  | nil => exact absurd rfl h
  | cons g2 rest => rfl

theorem splitChar_joinChar {c : Char} {gs : List (List Char)} (hne : gs ≠ [])
    (h : ∀ g ∈ gs, c ∉ g) : splitChar c (joinChar c gs) = gs := by
  induction gs with
  | nil => exact absurd rfl hne
  | cons g rest ih =>
    cases rest with
    | nil =>
      show splitChar c (joinChar c [g]) = [g]
      exact splitChar_no_sep (h g (List.mem_cons_self g []))
    | cons g2 rest2 =>
      rw [joinChar_cons (by simp)]
      rw [splitChar_append_sep (h g (List.mem_cons_self g _))]
      rw [ih (by simp) (fun g' hg' => h g' (List.mem_cons_of_mem g hg'))]

theorem splitCommaSpace_no_sep {a : List Char} (h : (',' : Char) ∉ a) :
    splitCommaSpace a = [a] := by
  induction a using splitCommaSpace.induct with
  | case1 => rfl
  | case2 x => rfl
  | case3 x y rest hxy ih =>
    exact absurd (hxy.1 ▸ List.mem_cons_self x (y :: rest)) h
  | case4 x y rest hxy hnil ih =>
    exact absurd hnil (splitCommaSpace_ne_nil (y :: rest))
  | case5 x y rest hxy g gs hsc ih =>
    have hr : (',' : Char) ∉ y :: rest := fun hm => h (List.mem_cons_of_mem x hm)
    have := ih hr
    rw [this] at hsc
    obtain ⟨rfl, rfl⟩ := by simpa using hsc.symm
    unfold splitCommaSpace
    rw [if_neg hxy, this]

theorem splitCommaSpace_append_sep {a b : List Char} (h : (',' : Char) ∉ a) :
    splitCommaSpace (a ++ ',' :: ' ' :: b) = a :: splitCommaSpace b := by
  induction a with
  | nil =>
    simp only [List.nil_append]
    generalize hb : splitCommaSpace b = R
    unfold splitCommaSpace
    rw [if_pos ⟨rfl, rfl⟩, hb]
  | cons x a' ih =>
    have hx : x ≠ ',' := fun he => h (he ▸ List.mem_cons_self x a')
    have ha : (',' : Char) ∉ a' := fun hm => h (List.mem_cons_of_mem x hm)
    have iha := ih ha
    cases a' with
    | nil =>
      simp only [List.cons_append, List.nil_append]
      generalize hb : splitCommaSpace b = R
      have hcb : splitCommaSpace (',' :: ' ' :: b) = [] :: R := by
        unfold splitCommaSpace
        rw [if_pos ⟨rfl, rfl⟩, hb]
      unfold splitCommaSpace
      rw [if_neg (fun hc => hx hc.1), hcb]
    | cons w a'' =>
      simp only [List.cons_append]
      generalize hb : splitCommaSpace b = R
      rw [hb] at iha
      simp only [List.cons_append] at iha
      unfold splitCommaSpace
      rw [if_neg (fun hc => hx hc.1), iha]

theorem sha256Bytes_length (msg : List Nat) : (sha256Bytes msg).length = 32 := by
  simp [sha256Bytes, wordBytes]

theorem hmacSha256_length (key msg : List Nat) :
    (hmacSha256 key msg).length = 32 :=
  sha256Bytes_length _

theorem length_flatMap_pair {β : Type} (f g : β → Char) (bs : List β) :
    (bs.flatMap (fun b => [f b, g b])).length = 2 * bs.length := by
  induction bs with
  | nil => rfl
  | cons x rest ih => simp [List.flatMap_cons, ih]; ring

theorem hexOfBytes_length (bs : List Nat) :
    (hexOfBytes bs).length = 2 * bs.length := by
  show (bs.flatMap fun b => [hexDigitChar (b / 16 % 16), hexDigitChar (b % 16)]).length = 2 * bs.length
  exact length_flatMap_pair _ _ bs

theorem hexOfBytes_chars (bs : List Nat) :
    ∀ c ∈ (hexOfBytes bs).data, c ∈ "0123456789abcdef".data := by
  intro c hc
  have : c ∈ bs.flatMap fun b => [hexDigitChar (b / 16 % 16), hexDigitChar (b % 16)] := hc
  rcases List.mem_flatMap.1 this with ⟨b, _, hcb⟩
  rcases List.mem_cons.1 hcb with rfl | hcb'
  · exact hexDigitChar_mem _
  · rcases List.mem_singleton.1 hcb' with rfl
    exact hexDigitChar_mem _

/-! ## Claim theorems -/

/-- C10: validate_challenge never reads the access_key_id field of the
Challenge: two challenges agreeing on scope, string_to_sign and signature
but with arbitrary different access_key_id values (including none) produce
the identical outcome for every secret key. -/
theorem C10_validate_ignores_access_key_id (sc sts sig secret : String)
    (a1 a2 : Option String) :
    validate_challenge ⟨sc, sts, sig, a1⟩ secret =
      validate_challenge ⟨sc, sts, sig, a2⟩ secret := rfl

/-- C2: for every secret, 8-digit date string, region and service name,
generate_signing_key is exactly the four-step HMAC-SHA256 chain keyed from
the literal prefix "AWS4" plus the secret, chained through date, region and
service, terminating in the literal "aws4_request", and the result is a
32-byte value. -/
theorem C2_signing_key_chain (secret date region service : String)
    (hdate : date.length = 8) :
    generate_signing_key secret date region service =
      hmacSha256
        (hmacSha256
          (hmacSha256
            (hmacSha256 (utf8Bytes ("AWS4" ++ secret)) (utf8Bytes date))
            (utf8Bytes region))
          (utf8Bytes service))
        (utf8Bytes "aws4_request") ∧
    (generate_signing_key secret date region service).length = 32 :=
  ⟨rfl, hmacSha256_length _ _⟩

/-- Witness for C2 at the repository's own test vector inputs. -/
theorem C2_signing_key_chain_witness :
    (generate_signing_key "secret-key" "20230809" "ksa" "service").length = 32 :=
  (C2_signing_key_chain "secret-key" "20230809" "ksa" "service" (by decide)).2

/-- C8 (amended): for every Challenge whose scope splits into exactly four
slash-separated segments, validate_challenge raises InvalidSignatureError
exactly when the signature re-derived from the first three segments and the
string-to-sign differs from the stored signature, and returns successfully
exactly when they are equal. -/
theorem C8_validate_challenge_raises_iff (challenge : Challenge)
    (secret d r s w : String)
    (hscope : pySplitChar '/' challenge.scope = [d, r, s, w]) :
    (validate_challenge challenge secret = .ok () ↔
      generate_signature (generate_signing_key secret d r s)
        challenge.string_to_sign = challenge.signature) ∧
    (validate_challenge challenge secret = .error .invalidSignature ↔
      generate_signature (generate_signing_key secret d r s)
        challenge.string_to_sign ≠ challenge.signature) := by
  unfold validate_challenge
  rw [hscope]
  have hd : [d, r, s, w].dropLast = [d, r, s] := rfl
  rw [hd]
  by_cases hsig : generate_signature (generate_signing_key secret d r s)
      challenge.string_to_sign = challenge.signature
  · simp [hsig]
  · simp [hsig]

/-- C8 counterexample to the claim as stated: a Challenge whose scope does
not have four segments makes validate_challenge raise ValueError from tuple
unpacking, which is neither success nor InvalidSignatureError. -/
theorem C8_counterexample :
    validate_challenge ⟨"ab", "sts", "sig", none⟩ "key" = .error .valueError ∧
    PyError.valueError ≠ PyError.invalidSignature := by
  exact ⟨rfl, by decide⟩

/-- Witness for C8 at a well-formed scope. -/
theorem C8_validate_challenge_raises_iff_witness :
    (validate_challenge ⟨"20230809/ksa/service/aws4_request", "x", "y", none⟩ "k" = .ok () ↔
      generate_signature (generate_signing_key "k" "20230809" "ksa" "service") "x" = "y") ∧
    (validate_challenge ⟨"20230809/ksa/service/aws4_request", "x", "y", none⟩ "k" =
        .error .invalidSignature ↔
      generate_signature (generate_signing_key "k" "20230809" "ksa" "service") "x" ≠ "y") :=
  C8_validate_challenge_raises_iff _ "k" "20230809" "ksa" "service" "aws4_request" (by decide)

/-- C3: during challenge extraction, the date check on the x-amz-date
header: absent yields MissingHeaderError; present with a parsed instant
more than five seconds (strictly) from the current time, earlier or later,
yields InvalidDateError; present within five seconds passes the check and
returns the raw header value. -/
theorem C3_date_drift_check (headers : Headers) (now : DateTime) :
    (getCI headers "x-amz-date" = none →
      _parse_key_date headers now = .error .missingHeader) ∧
    (∀ v t, getCI headers "x-amz-date" = some (.str v) → parseAmzDate v = some t →
      (5 < driftSeconds now t → _parse_key_date headers now = .error .invalidDate) ∧
      (driftSeconds now t ≤ 5 → _parse_key_date headers now = .ok v)) := by
  constructor
  · intro h
    unfold _parse_key_date
    rw [h]
  · intro v t hv hp
    constructor
    · intro hd
      unfold _parse_key_date
      rw [hv]
      show (match parseAmzDate v with
        | none => Except.error PyError.parseError
        | some header =>
          if 5 < driftSeconds now header then Except.error PyError.invalidDate
          else Except.ok v) = Except.error PyError.invalidDate
      rw [hp]
      show (if 5 < driftSeconds now t then Except.error PyError.invalidDate
        else Except.ok v) = Except.error PyError.invalidDate
      rw [if_pos hd]
    · intro hd
      unfold _parse_key_date
      rw [hv]
      show (match parseAmzDate v with
        | none => Except.error PyError.parseError
        | some header =>
          if 5 < driftSeconds now header then Except.error PyError.invalidDate
          else Except.ok v) = Except.ok v
      rw [hp]
      show (if 5 < driftSeconds now t then Except.error PyError.invalidDate
        else Except.ok v) = Except.ok v
      rw [if_neg (Nat.not_lt.2 hd)]

/-- Witness for C3: a missing header, a drift of exactly six seconds (in
either direction) and a drift of exactly five seconds, at concrete
instants. -/
theorem C3_date_drift_check_witness :
    _parse_key_date [] ⟨2023, 8, 9, 1, 2, 3⟩ = .error .missingHeader ∧
    _parse_key_date [("x-amz-date", .str "20230809T010203Z")]
      ⟨2023, 8, 9, 1, 2, 9⟩ = .error .invalidDate ∧
    _parse_key_date [("x-amz-date", .str "20230809T010203Z")]
      ⟨2023, 8, 9, 1, 1, 57⟩ = .error .invalidDate ∧
    _parse_key_date [("x-amz-date", .str "20230809T010203Z")]
      ⟨2023, 8, 9, 1, 2, 8⟩ = .ok "20230809T010203Z" :=
  ⟨(C3_date_drift_check [] ⟨2023, 8, 9, 1, 2, 3⟩).1 rfl,
   ((C3_date_drift_check _ _).2 "20230809T010203Z" ⟨2023, 8, 9, 1, 2, 3⟩
      (by decide) (by decide)).1 (by decide),
   ((C3_date_drift_check _ _).2 "20230809T010203Z" ⟨2023, 8, 9, 1, 2, 3⟩
      (by decide) (by decide)).1 (by decide),
   ((C3_date_drift_check _ _).2 "20230809T010203Z" ⟨2023, 8, 9, 1, 2, 3⟩
      (by decide) (by decide)).2 (by decide)⟩

/-- C4 counterexample: the code splits each pair on EVERY equals sign and
sorts the resulting component lists, which differs from sorting by the raw
`name=value` pair string as a whole (and from name-then-value ordering on a
first-equals split): at query `a=b=c&a=b!x` the code keeps `a=b=c` first,
while the claimed whole-pair ordering puts `a=b!x` first. -/
theorem C4_counterexample :
    _generate_canonical_query_string (some "a=b=c&a=b!x") = "a=b=c&a=b!x" ∧
    claimCanonicalQueryString (some "a=b=c&a=b!x") = "a=b!x&a=b=c" ∧
    _generate_canonical_query_string (some "a=b=c&a=b!x") ≠
      claimCanonicalQueryString (some "a=b=c&a=b!x") := by
  refine ⟨by decide, by decide, by decide⟩

/-- C4 (amended): the canonicalizer splits the raw query on ampersands,
splits each pair on every equals sign, sorts the component lists
lexicographically (componentwise code-point string comparison, shorter
prefix first), rejoins components with equals and pairs with ampersands;
an absent or empty query yields the empty string. -/
theorem C4_canonical_query_string (query : Option String) :
    (_generate_canonical_query_string none = "" ∧
     _generate_canonical_query_string (some "") = "") ∧
    ∃ l, List.Perm l
        ((splitChar '&' ((query.getD "").data)).map fun p =>
          (splitChar '=' p).map String.mk) ∧
      List.Pairwise (fun a b => strListLe a b = true) l ∧
      _generate_canonical_query_string query =
        pyJoinChar '&' (l.map fun pair => pyJoinChar '=' pair) :=
  ⟨⟨rfl, rfl⟩,
   ⟨pySorted strListLe _,
    pySorted_perm strListLe _,
    pySorted_pairwise strListLe strListLe_total strListLe_trans _,
    rfl⟩⟩

/-- Correspondence between `_parse_authorization` and the exposed
dictionary `authDataDict` it builds. -/
theorem parse_authorization_via_dict (authorization : String) :
    _parse_authorization authorization =
      match dictLookup (authDataDict authorization) "credential" with
      | none => .error (.keyError "credential")
      | some credential =>
        match dictLookup (authDataDict authorization) "signedheaders" with
        | none => .error (.keyError "signedheaders")
        | some signed_headers =>
          match dictLookup (authDataDict authorization) "signature" with
          | none => .error (.keyError "signature")
          | some signature =>
            .ok ((pyPartitionChar ' ' authorization).1, credential,
              signed_headers, signature) := rfl

/-- C5 (amended): parsing an inbound Authorization header splits on the
first space, splits the remainder on comma-space into case-insensitively
keyed `key=value` pairs, and requires the keys credential, signedheaders
and signature; if any of the three is absent the operation fails with a
Python KeyError naming the first missing key — a built-in lookup error,
not an error of the library's own taxonomy (which has no MissingField
member); when all three are present it succeeds. -/
theorem C5_parse_authorization_required_keys (authorization : String) :
    (dictLookup (authDataDict authorization) "credential" = none →
      _parse_authorization authorization = .error (.keyError "credential") ∧
      isAWS4Error (.keyError "credential") = false) ∧
    (∀ c, dictLookup (authDataDict authorization) "credential" = some c →
      dictLookup (authDataDict authorization) "signedheaders" = none →
      _parse_authorization authorization = .error (.keyError "signedheaders") ∧
      isAWS4Error (.keyError "signedheaders") = false) ∧
    (∀ c sh, dictLookup (authDataDict authorization) "credential" = some c →
      dictLookup (authDataDict authorization) "signedheaders" = some sh →
      dictLookup (authDataDict authorization) "signature" = none →
      _parse_authorization authorization = .error (.keyError "signature") ∧
      isAWS4Error (.keyError "signature") = false) ∧
    (∀ c sh sig, dictLookup (authDataDict authorization) "credential" = some c →
      dictLookup (authDataDict authorization) "signedheaders" = some sh →
      dictLookup (authDataDict authorization) "signature" = some sig →
      _parse_authorization authorization =
        .ok ((pyPartitionChar ' ' authorization).1, c, sh, sig)) := by
  refine ⟨?_, ?_, ?_, ?_⟩
  · intro h
    rw [parse_authorization_via_dict, h]
    exact ⟨rfl, rfl⟩
  · intro c hc h
    rw [parse_authorization_via_dict, hc, h]
    exact ⟨rfl, rfl⟩
  · intro c sh hc hsh h
    rw [parse_authorization_via_dict, hc, hsh, h]
    exact ⟨rfl, rfl⟩
  · intro c sh sig hc hsh hsig
    rw [parse_authorization_via_dict, hc, hsh, hsig]

/-- C5 counterexample to the claim as stated: an Authorization header
missing its Signature pair makes _parse_authorization fail with Python
KeyError, which is not a member of the library's error taxonomy (there is
no MissingField error in the code). -/
theorem C5_counterexample :
    _parse_authorization
        "AWS4-HMAC-SHA256 Credential=a/b/c/d/e, SignedHeaders=x" =
      .error (.keyError "signature") ∧
    isAWS4Error (.keyError "signature") = false := by
  exact ⟨rfl, rfl⟩

/-- Witness for C5 at a concrete malformed header and a concrete complete
header. -/
theorem C5_parse_authorization_required_keys_witness :
    (_parse_authorization "AWS4-HMAC-SHA256 Credential=a/b, SignedHeaders=h" =
        .error (.keyError "signature") ∧
      isAWS4Error (.keyError "signature") = false) ∧
    _parse_authorization "AWS4-HMAC-SHA256 Credential=a/b, SignedHeaders=h, Signature=s" =
      .ok ("AWS4-HMAC-SHA256", "a/b", "h", "s") :=
  ⟨(C5_parse_authorization_required_keys
      "AWS4-HMAC-SHA256 Credential=a/b, SignedHeaders=h").2.2.1 "a/b" "h"
      (by decide) (by decide) (by decide),
   by
    have := (C5_parse_authorization_required_keys
      "AWS4-HMAC-SHA256 Credential=a/b, SignedHeaders=h, Signature=s").2.2.2
      "a/b" "h" "s" (by decide) (by decide) (by decide)
    rw [this]
    rfl⟩

theorem subSpaces_true_head (l : List Char) :
    (subSpaces true l).head? ≠ some ' ' := by
  induction l with
  | nil => simp [subSpaces]
  | cons c rest ih =>
    unfold subSpaces
    by_cases hc : c = ' '
    · rw [if_pos hc, if_pos rfl]
      exact ih
    · rw [if_neg hc]
      simp [hc]

theorem noDoubleSpace_subSpaces (l : List Char) :
    ∀ flag, noDoubleSpace (subSpaces flag l) = true := by
  induction l with
  | nil => intro flag; rfl
  | cons c rest ih =>
    intro flag
    unfold subSpaces
    by_cases hc : c = ' '
    · subst hc
      rw [if_pos rfl]
      cases flag with
      | true => rw [if_pos rfl]; exact ih true
      | false =>
        rw [if_neg (by simp)]
        have hh := subSpaces_true_head rest
        have ht := ih true
        cases hx : subSpaces true rest with
        | nil => rfl
        | cons x xs =>
          rw [hx] at hh ht
          have hxne : x ≠ ' ' := fun hx' => hh (by simp [hx'])
          unfold noDoubleSpace
          rw [if_neg (fun hcc => hxne hcc.2)]
          exact ht
    · rw [if_neg hc]
      have hf := ih false
      cases hx : subSpaces false rest with
      | nil => rfl
      | cons x xs =>
        rw [hx] at hf
        unfold noDoubleSpace
        rw [if_neg (by exact fun hcc => hc hcc.1)]
        exact hf

theorem subSpaces_id (l : List Char) (h : noDoubleSpace l = true) :
    subSpaces false l = l ∧ (l.head? ≠ some ' ' → subSpaces true l = l) := by
  induction l with
  | nil => exact ⟨rfl, fun _ => rfl⟩
  | cons c rest ih =>
    have hsplit : noDoubleSpace rest = true ∧ ¬(c = ' ' ∧ rest.head? = some ' ') := by
      cases rest with
      | nil => exact ⟨rfl, by simp⟩
      | cons x xs =>
        unfold noDoubleSpace at h
        constructor
        · by_cases hcx : c = ' ' ∧ x = ' '
          · rw [if_pos hcx] at h; exact absurd h (by simp)
          · rw [if_neg hcx] at h; exact h
        · rintro ⟨hc, hx⟩
          have hx' : x = ' ' := by simpa using hx
          rw [if_pos ⟨hc, hx'⟩] at h
          exact absurd h (by simp)
    obtain ⟨hrest, hcr⟩ := hsplit
    obtain ⟨ih1, ih2⟩ := ih hrest
    by_cases hc : c = ' '
    · subst hc
      constructor
      · unfold subSpaces
        rw [if_pos rfl, if_neg (by simp)]
        rw [ih2 (fun hh => hcr ⟨rfl, hh⟩)]
      · intro hh
        exact absurd rfl hh
    · constructor
      · unfold subSpaces
        rw [if_neg hc, ih1]
      · intro _
        unfold subSpaces
        rw [if_neg hc, ih1]

theorem subSpaces_head (l : List Char) :
    (subSpaces false l).head? = some ' ' ↔ l.head? = some ' ' := by
  cases l with
  | nil => simp [subSpaces]
  | cons c rest =>
    unfold subSpaces
    by_cases hc : c = ' '
    · subst hc
      rw [if_pos rfl, if_neg (by simp)]
      simp
    · rw [if_neg hc]
      simp [hc]

/-- C9: in both canonicalization modes every run of consecutive ASCII
spaces in a header value collapses to one space, single leading and
trailing spaces are preserved (the substitution is the identity on values
with no space run, so no trimming happens), and the values of a
multi-valued header are joined with a comma; both the full-mode and the
restricted-mode canonicalizer normalize values through `multiSpaceSub`. -/
theorem C9_whitespace_normalization :
    (∀ v, canonicalValue (.str v) = multiSpaceSub v) ∧
    (∀ vs, canonicalValue (.list vs) = pyJoinChar ',' (vs.map multiSpaceSub)) ∧
    (∀ s, noDoubleSpaceStr (multiSpaceSub s) = true) ∧
    (∀ s, noDoubleSpaceStr s = true → multiSpaceSub s = s) ∧
    (∀ s, (multiSpaceSub s).data.head? = some ' ' ↔ s.data.head? = some ' ') ∧
    multiSpaceSub "hello    world" = "hello world" ∧
    multiSpaceSub " hello   world  " = " hello world " ∧
    _generate_canonical_headers [("foo", .str "hello    world")] =
      ("foo:hello world", "foo") ∧
    _recreate_canonical_headers [("foo", .str "hello    world")] "foo" =
      "foo:hello world" ∧
    _generate_canonical_headers [("foo", .list ["a  b", "c"])] =
      ("foo:a b,c", "foo") ∧
    _recreate_canonical_headers [("foo", .list ["a  b", "c"])] "foo" =
      "foo:a b,c" := by
  refine ⟨fun v => rfl, fun vs => rfl, fun s => noDoubleSpace_subSpaces s.data false,
    fun s h => string_data_inj ((subSpaces_id s.data h).1),
    fun s => subSpaces_head s.data, by decide, by decide, by decide, by decide,
    by decide, by decide⟩

/-- Witness for C9 exercising the fixed-point conjunct at a value with
single leading and trailing spaces. -/
theorem C9_whitespace_normalization_witness :
    multiSpaceSub " a b " = " a b " :=
  C9_whitespace_normalization.2.2.2.1 " a b " (by decide)

theorem dictUpsert_keys_mem (d : List (String × String)) (k v m : String) :
    m ∈ (dictUpsert d k v).map Prod.fst ↔ m ∈ d.map Prod.fst ∨ m = k := by
  induction d with
  | nil => simp [dictUpsert]
  | cons e rest ih =>
    unfold dictUpsert
    by_cases hk : e.1 = k
    · rw [if_pos hk]
      subst hk
      simp
      tauto
    · rw [if_neg hk]
      simp only [List.map_cons, List.mem_cons]
      rw [ih]
      tauto

theorem buildDict_cons (p : String → Bool) (k : String) (v : HVal)
    (rest : Headers) (d : List (String × String)) :
    buildDict p ((k, v) :: rest) d =
      buildDict p rest
        (if p (pyLower k) then dictUpsert d (pyLower k) (canonicalValue v) else d) := rfl

theorem buildDict_keys_mem (p : String → Bool) (l : Headers) :
    ∀ d m, m ∈ (buildDict p l d).map Prod.fst ↔
      m ∈ d.map Prod.fst ∨ (p m = true ∧ ∃ kv ∈ l, pyLower kv.1 = m) := by
  induction l with
  | nil => intro d m; simp [buildDict]
  | cons e rest ih =>
    intro d m
    rw [buildDict_cons, ih]
    by_cases hp : p (pyLower e.1) = true
    · rw [if_pos hp, dictUpsert_keys_mem]
      constructor
      · rintro ((hd | rfl) | ⟨hpm, kv, hkv, hkveq⟩)
        · exact Or.inl hd
        · exact Or.inr ⟨hp, ⟨e, List.mem_cons_self e rest, rfl⟩⟩
        · exact Or.inr ⟨hpm, ⟨kv, List.mem_cons_of_mem e hkv, hkveq⟩⟩
      · rintro (hd | ⟨hpm, kv, hkv, hkveq⟩)
        · exact Or.inl (Or.inl hd)
        · rcases List.mem_cons.1 hkv with rfl | hkv'
          · exact Or.inl (Or.inr hkveq.symm)
          · exact Or.inr ⟨hpm, ⟨kv, hkv', hkveq⟩⟩
    · rw [if_neg hp]
      constructor
      · rintro (hd | ⟨hpm, kv, hkv, hkveq⟩)
        · exact Or.inl hd
        · exact Or.inr ⟨hpm, ⟨kv, List.mem_cons_of_mem e hkv, hkveq⟩⟩
      · rintro (hd | ⟨hpm, kv, hkv, hkveq⟩)
        · exact Or.inl hd
        · rcases List.mem_cons.1 hkv with rfl | hkv'
          · rw [hkveq] at hp
            exact absurd hpm hp
          · exact Or.inr ⟨hpm, ⟨kv, hkv', hkveq⟩⟩

theorem canonicalHeaderNames_mem (headers : Headers) (m : String) :
    m ∈ canonicalHeaderNames headers ↔
      excludedHeaders.contains m = false ∧ ∃ kv ∈ headers, pyLower kv.1 = m := by
  unfold canonicalHeaderNames
  rw [List.Perm.mem_iff ((pySorted_perm pairLe _).map Prod.fst)]
  rw [buildDict_keys_mem]
  simp [Bool.not_eq_true']

/-- C6: the full-mode signed-header list never contains authorization,
user-agent, accept, accept-encoding or connection, case-insensitively,
even when present in the input; every other header name appears,
lowercased; the list is sorted; and the canonical header block lines carry
exactly these names. -/
theorem C6_header_exclusion (headers : Headers) :
    (_generate_canonical_headers headers).2 =
      pyJoinChar ';' (canonicalHeaderNames headers) ∧
    (∀ n ∈ excludedHeaders, n ∉ canonicalHeaderNames headers) ∧
    (∀ k v, (k, v) ∈ headers → excludedHeaders.contains (pyLower k) = false →
      pyLower k ∈ canonicalHeaderNames headers) ∧
    (∀ n ∈ canonicalHeaderNames headers,
      excludedHeaders.contains n = false ∧ ∃ kv ∈ headers, pyLower kv.1 = n) ∧
    List.Pairwise (fun a b : String => cmpLe cmpStr a b = true)
      (canonicalHeaderNames headers) ∧
    ∃ entries : List (String × String),
      entries.map Prod.fst = canonicalHeaderNames headers ∧
      (_generate_canonical_headers headers).1 =
        pyJoinChar '\n' (entries.map fun e => e.1 ++ ":" ++ e.2) := by
  refine ⟨rfl, ?_, ?_, ?_, ?_, ?_⟩
  · intro n hn hmem
    have := ((canonicalHeaderNames_mem headers n).1 hmem).1
    simp at this
    exact this hn
  · intro k v hkv hne
    exact (canonicalHeaderNames_mem headers (pyLower k)).2
      ⟨hne, ⟨(k, v), hkv, rfl⟩⟩
  · intro n hn
    exact (canonicalHeaderNames_mem headers n).1 hn
  · unfold canonicalHeaderNames
    refine List.Pairwise.map Prod.fst ?_
      (pySorted_pairwise pairLe pairLe_total pairLe_trans _)
    intro a b hab
    simp only [cmpLe, ne_eq, decide_eq_true_eq]
    intro hgt
    have hpgt := cmpPair_fst_gt (a := a) (b := b) hgt
    simp only [pairLe, cmpLe, ne_eq, decide_eq_true_eq] at hab
    exact hab hpgt
  · exact ⟨pySorted pairLe (buildDict (fun k => !(excludedHeaders.contains k)) headers []),
      rfl, rfl⟩

/-- Witness for C6 at a concrete mapping containing an excluded name. -/
theorem C6_header_exclusion_witness :
    "accept" ∉ canonicalHeaderNames [("Accept", .str "x"), ("Host", .str "h")] ∧
    "host" ∈ canonicalHeaderNames [("Accept", .str "x"), ("Host", .str "h")] :=
  ⟨(C6_header_exclusion [("Accept", .str "x"), ("Host", .str "h")]).2.1 "accept"
      (by decide),
   (C6_header_exclusion [("Accept", .str "x"), ("Host", .str "h")]).2.2.1 "Host"
      (.str "h") (by simp) (by decide)⟩

theorem getAllCI_removeCI_other {l : Headers} {k n : String}
    (h : pyLower n ≠ pyLower k) : getAllCI (removeCI l k) n = getAllCI l n := by
  induction l with
  | nil => rfl
  | cons e rest ih =>
    unfold removeCI getAllCI at *
    by_cases he : pyLower e.1 = pyLower k
    · rw [List.filter_cons]
      have hne : (pyLower e.1 != pyLower k) = false := by simp [he]
      rw [hne]
      simp only [Bool.false_eq_true, if_false]
      rw [ih]
      rw [List.filter_cons]
      have hne2 : (pyLower e.1 == pyLower n) = false := by
        simp [he]
        exact fun hc => h (hc ▸ he ▸ rfl)
      rw [hne2]
      simp
    · rw [List.filter_cons]
      have hne : (pyLower e.1 != pyLower k) = true := by simp [he]
      rw [hne]
      simp only [if_true]
      rw [List.filter_cons, List.filter_cons, ih]

theorem getAllCI_removeCI_self (l : Headers) (k : String) :
    getAllCI (removeCI l k) k = [] := by
  induction l with
  | nil => rfl
  | cons e rest ih =>
    unfold removeCI getAllCI at *
    rw [List.filter_cons]
    by_cases he : pyLower e.1 = pyLower k
    · have hne : (pyLower e.1 != pyLower k) = false := by simp [he]
      rw [hne]
      simpa using ih
    · have hne : (pyLower e.1 != pyLower k) = true := by simp [he]
      rw [hne]
      simp only [if_true]
      rw [List.filter_cons]
      have hne2 : (pyLower e.1 == pyLower k) = false := by simp [he]
      rw [hne2]
      simpa using ih

theorem getAllCI_setCI_other {l : Headers} {k n : String} {v : HVal}
    (h : pyLower n ≠ pyLower k) : getAllCI (setCI l k v) n = getAllCI l n := by
  induction l with
  | nil =>
    show getAllCI [(k, v)] n = getAllCI [] n
    unfold getAllCI
    rw [List.filter_cons]
    have : (pyLower k == pyLower n) = false := by
      simp
      exact fun hc => h hc.symm
    rw [this]
    simp
  | cons e rest ih =>
    unfold setCI
    by_cases he : pyLower e.1 = pyLower k
    · rw [if_pos he]
      unfold getAllCI
      rw [List.filter_cons]
      have : (pyLower k == pyLower n) = false := by
        simp
        exact fun hc => h hc.symm
      rw [this]
      simp only [Bool.false_eq_true, if_false]
      have hr := getAllCI_removeCI_other (l := rest) (k := k) (n := n) h
      unfold getAllCI at hr
      rw [hr]
      show getAllCI rest n = getAllCI (e :: rest) n
      unfold getAllCI
      rw [List.filter_cons]
      have : (pyLower e.1 == pyLower n) = false := by
        simp
        exact fun hc => h (hc ▸ he ▸ rfl)
      rw [this]
      simp
    · rw [if_neg he]
      unfold getAllCI at *
      rw [List.filter_cons, List.filter_cons, ih]

theorem getAllCI_setCI_self (l : Headers) (k : String) (v : HVal) :
    getAllCI (setCI l k v) k = [(k, v)] := by
  induction l with
  | nil =>
    show getAllCI [(k, v)] k = [(k, v)]
    unfold getAllCI
    rw [List.filter_cons]
    simp
  | cons e rest ih =>
    unfold setCI
    by_cases he : pyLower e.1 = pyLower k
    · rw [if_pos he]
      unfold getAllCI
      rw [List.filter_cons]
      simp only [beq_self_eq_true, if_true]
      have := getAllCI_removeCI_self rest k
      unfold getAllCI at this
      rw [this]
    · rw [if_neg he]
      unfold getAllCI at *
      rw [List.filter_cons]
      have hne : (pyLower e.1 == pyLower k) = false := by simp [he]
      rw [hne]
      simpa using ih

/-- C7: the mapping returned by sign_request is the input mapping with
exactly two possible changes: the Authorization entry is set/overwritten
with the computed value, and x-amz-content-sha256 is set to the computed
content hash only when no such entry existed (an existing one is left
unchanged); every entry under any other name is unchanged. -/
theorem C7_sign_request_frame (service_name method : String) (url : Url)
    (region : String) (headers : Headers) (content : Option (List Nat))
    (access_key_id secret_access_key : String) (date : DateTime) :
    (∀ n : String, pyLower n ≠ "authorization" →
      pyLower n ≠ "x-amz-content-sha256" →
      getAllCI (sign_request service_name method url region headers content
        access_key_id secret_access_key date) n = getAllCI headers n) ∧
    getAllCI (sign_request service_name method url region headers content
        access_key_id secret_access_key date) "Authorization" =
      [("Authorization", .str (signRequestAuthValue service_name method url
        region headers content access_key_id secret_access_key date))] ∧
    getAllCI (sign_request service_name method url region headers content
        access_key_id secret_access_key date) "x-amz-content-sha256" =
      (if getCI headers "x-amz-content-sha256" = none
       then [("x-amz-content-sha256", .str (signRequestContentSha url content))]
       else getAllCI headers "x-amz-content-sha256") := by
  have hauth : pyLower "Authorization" = "authorization" := by decide
  have hch : pyLower "x-amz-content-sha256" = "x-amz-content-sha256" := by decide
  refine ⟨?_, ?_, ?_⟩
  · intro n hn1 hn2
    unfold sign_request
    rw [getAllCI_setCI_other (by rw [hauth]; exact hn1)]
    unfold signRequestHeaders1
    by_cases hc : (getCI headers "x-amz-content-sha256").isNone
    · rw [if_pos hc]
      rw [getAllCI_setCI_other (by rw [hch]; exact hn2)]
    · rw [if_neg hc]
  · unfold sign_request
    exact getAllCI_setCI_self _ _ _
  · unfold sign_request
    rw [getAllCI_setCI_other (by rw [hauth]; decide)]
    unfold signRequestHeaders1
    by_cases hc : getCI headers "x-amz-content-sha256" = none
    · rw [if_pos (by simp [hc]), if_pos hc]
      exact getAllCI_setCI_self _ _ _
    · rw [if_neg (by simpa using hc), if_neg hc]

/-- Witness for C7 at a concrete request, exercising the unchanged-header
conjunct at the name host. -/
theorem C7_sign_request_frame_witness :
    getAllCI (sign_request "svc" "GET" ⟨"https", "/p", none⟩ "r"
        [("Host", .str "h")] none "ak" "sk" ⟨2023, 8, 9, 1, 2, 3⟩) "host" =
      getAllCI [("Host", .str "h")] "host" ∧
    getAllCI (sign_request "svc" "GET" ⟨"https", "/p", none⟩ "r"
        [("Host", .str "h")] none "ak" "sk" ⟨2023, 8, 9, 1, 2, 3⟩) "Authorization" =
      [("Authorization", .str (signRequestAuthValue "svc" "GET" ⟨"https", "/p", none⟩
        "r" [("Host", .str "h")] none "ak" "sk" ⟨2023, 8, 9, 1, 2, 3⟩))] :=
  ⟨(C7_sign_request_frame "svc" "GET" ⟨"https", "/p", none⟩ "r"
      [("Host", .str "h")] none "ak" "sk" ⟨2023, 8, 9, 1, 2, 3⟩).1 "host"
      (by decide) (by decide),
   (C7_sign_request_frame "svc" "GET" ⟨"https", "/p", none⟩ "r"
      [("Host", .str "h")] none "ak" "sk" ⟨2023, 8, 9, 1, 2, 3⟩).2.1⟩

theorem strData_append (a b : String) : (a ++ b).data = a.data ++ b.data := by
  cases a; cases b; rfl

theorem strMk_data (s : String) : (⟨s.data⟩ : String) = s := by
  cases s; rfl

theorem charNotMem_of_subset {l S : List Char} (hsub : ∀ c ∈ l, c ∈ S)
    {x : Char} (hx : x ∉ S) : x ∉ l :=
  fun hm => hx (hsub x hm)

theorem padNum_chars (width n : Nat) : ∀ c ∈ padNum width n, c ∈ "0123456789".data := by
  intro c hc
  rcases List.mem_append.1 hc with h | h
  · rw [List.eq_of_mem_replicate h]
    decide
  · exact decDigits_subset_digits n c h

theorem to_signer_date_chars (d : DateTime) :
    ∀ c ∈ (to_signer_date d).data, c ∈ "0123456789".data := by
  intro c hc
  unfold to_signer_date at hc
  rcases List.mem_append.1 hc with h | h
  · rcases List.mem_append.1 h with h' | h'
    · exact padNum_chars 4 d.year c h'
    · exact padNum_chars 2 d.month c h'
  · exact padNum_chars 2 d.day c h

theorem pyLower_chars_notMem {s : String} {x : Char}
    (hx : ¬(97 ≤ x.toNat ∧ x.toNat ≤ 122)) (hs : x ∉ s.data) :
    x ∉ (pyLower s).data := by
  intro hm
  unfold pyLower at hm
  rcases List.mem_map.1 hm with ⟨c, hc, hce⟩
  have hcx : c ≠ x := fun he => hs (he ▸ hc)
  exact pyLowerChar_ne hx hcx hce

theorem getCI_cons (k' : String) (v' : HVal) (rest : Headers) (k : String) :
    getCI ((k', v') :: rest) k =
      if pyLower k' = pyLower k then some v' else getCI rest k := rfl

theorem getCI_eq_getAllCI (l : Headers) (k : String) :
    getCI l k = ((getAllCI l k).head?).map Prod.snd := by
  induction l with
  | nil => rfl
  | cons e rest ih =>
    obtain ⟨k', v'⟩ := e
    rw [getCI_cons]
    unfold getAllCI
    rw [List.filter_cons]
    by_cases he : pyLower k' = pyLower k
    · rw [if_pos he]
      have hb : (pyLower (k', v').1 == pyLower k) = true := by simp [he]
      rw [hb]
      simp
    · rw [if_neg he]
      have hb : (pyLower (k', v').1 == pyLower k) = false := by simp [he]
      rw [hb]
      simp only [Bool.false_eq_true, if_false]
      exact ih

theorem getCI_setCI_self (l : Headers) (k : String) (v : HVal) :
    getCI (setCI l k v) k = some v := by
  rw [getCI_eq_getAllCI, getAllCI_setCI_self]
  rfl

theorem getCI_setCI_other {l : Headers} {k n : String} {v : HVal}
    (h : pyLower n ≠ pyLower k) : getCI (setCI l k v) n = getCI l n := by
  rw [getCI_eq_getAllCI, getAllCI_setCI_other h, ← getCI_eq_getAllCI]

theorem setCI_of_getCI_none {l : Headers} {k : String} (v : HVal)
    (h : getCI l k = none) : setCI l k v = l ++ [(k, v)] := by
  induction l with
  | nil => rfl
  | cons e rest ih =>
    obtain ⟨k', v'⟩ := e
    rw [getCI_cons] at h
    unfold setCI
    by_cases he : pyLower k' = pyLower k
    · rw [if_pos he] at h
      exact absurd h (by simp)
    · rw [if_neg he] at h
      rw [if_neg he, ih h]
      rfl

theorem getCI_append_left {l l2 : Headers} {k : String} {v : HVal}
    (h : getCI l k = some v) : getCI (l ++ l2) k = some v := by
  induction l with
  | nil => exact absurd h (by simp [getCI])
  | cons e rest ih =>
    obtain ⟨k', v'⟩ := e
    rw [getCI_cons] at h
    rw [List.cons_append, getCI_cons]
    by_cases he : pyLower k' = pyLower k
    · rw [if_pos he] at h ⊢
      exact h
    · rw [if_neg he] at h ⊢
      exact ih h

theorem getCI_append_right {l : Headers} {k : String} (l2 : Headers)
    (h : getCI l k = none) : getCI (l ++ l2) k = getCI l2 k := by
  induction l with
  | nil => rfl
  | cons e rest ih =>
    obtain ⟨k', v'⟩ := e
    rw [getCI_cons] at h
    rw [List.cons_append, getCI_cons]
    by_cases he : pyLower k' = pyLower k
    · rw [if_pos he] at h
      exact absurd h (by simp)
    · rw [if_neg he] at h ⊢
      exact ih h

theorem buildDict_agree {p q : String → Bool} {l : Headers}
    (h : ∀ e ∈ l, p (pyLower e.1) = q (pyLower e.1)) :
    ∀ d, buildDict p l d = buildDict q l d := by
  induction l with
  | nil => intro d; rfl
  | cons e rest ih =>
    intro d
    obtain ⟨k, v⟩ := e
    rw [buildDict_cons, buildDict_cons]
    have hk := h (k, v) (List.mem_cons_self _ _)
    rw [hk]
    exact ih (fun e' he' => h e' (List.mem_cons_of_mem _ he')) _

theorem buildDict_removeCI {p : String → Bool} {k : String}
    (hp : p (pyLower k) = false) (l : Headers) :
    ∀ d, buildDict p (removeCI l k) d = buildDict p l d := by
  induction l with
  | nil => intro d; rfl
  | cons e rest ih =>
    intro d
    obtain ⟨k', v'⟩ := e
    unfold removeCI
    rw [List.filter_cons]
    by_cases he : pyLower k' = pyLower k
    · have hb : (pyLower (k', v').1 != pyLower k) = false := by simp [he]
      rw [hb]
      simp only [Bool.false_eq_true, if_false]
      rw [buildDict_cons]
      rw [he, hp]
      exact ih d
    · have hb : (pyLower (k', v').1 != pyLower k) = true := by simp [he]
      rw [hb]
      simp only [if_true]
      rw [buildDict_cons, buildDict_cons]
      exact ih _

theorem buildDict_setCI {p : String → Bool} {k : String} {v : HVal}
    (hp : p (pyLower k) = false) (l : Headers) :
    ∀ d, buildDict p (setCI l k v) d = buildDict p l d := by
  induction l with
  | nil =>
    intro d
    show buildDict p [(k, v)] d = buildDict p [] d
    rw [buildDict_cons, hp]
    rfl
  | cons e rest ih =>
    intro d
    obtain ⟨k', v'⟩ := e
    unfold setCI
    by_cases he : pyLower k' = pyLower k
    · rw [if_pos he]
      rw [buildDict_cons, buildDict_cons, hp, he, hp]
      exact buildDict_removeCI hp rest d
    · rw [if_neg he]
      rw [buildDict_cons, buildDict_cons]
      exact ih _

theorem mem_joinChar {sep : Char} {gs : List (List Char)} {c : Char}
    (h : c ∈ joinChar sep gs) : c = sep ∨ ∃ g ∈ gs, c ∈ g := by
  induction gs with
  | nil => simp [joinChar] at h
  | cons g rest ih =>
    cases rest with
    | nil =>
      right
      exact ⟨g, List.mem_cons_self _ _, h⟩
    | cons g2 rest2 =>
      rw [joinChar_cons (by simp)] at h
      rcases List.mem_append.1 h with hg | hg
      · exact Or.inr ⟨g, List.mem_cons_self _ _, hg⟩
      · rcases List.mem_cons.1 hg with rfl | hg'
        · exact Or.inl rfl
        · rcases ih hg' with hc | ⟨g', hg'', hcg⟩
          · exact Or.inl hc
          · exact Or.inr ⟨g', List.mem_cons_of_mem _ hg'', hcg⟩

theorem parse_signed_auth (akid scope sh sig : String)
    (hak : ',' ∉ akid.data) (hscope : ',' ∉ scope.data)
    (hsh : ',' ∉ sh.data) (hsig : ',' ∉ sig.data) :
    _parse_authorization ("AWS4-HMAC-SHA256 Credential=" ++ akid ++ "/" ++ scope ++
        ", SignedHeaders=" ++ sh ++ ", Signature=" ++ sig) =
      .ok ("AWS4-HMAC-SHA256", akid ++ "/" ++ scope, sh, sig) := by
  set s := "AWS4-HMAC-SHA256 Credential=" ++ akid ++ "/" ++ scope ++
    ", SignedHeaders=" ++ sh ++ ", Signature=" ++ sig with hs
  have hsdata : s.data = "AWS4-HMAC-SHA256".data ++ ' ' ::
      ("Credential".data ++ '=' :: (akid.data ++ '/' :: scope.data) ++
        ',' :: ' ' :: ("SignedHeaders".data ++ '=' :: sh.data) ++
        ',' :: ' ' :: ("Signature".data ++ '=' :: sig.data)) := by
    rw [hs]
    simp only [strData_append, List.append_assoc]
    simp
  have hpt : pyPartitionChar ' ' s = ("AWS4-HMAC-SHA256", true,
      ⟨"Credential".data ++ '=' :: (akid.data ++ '/' :: scope.data) ++
        ',' :: ' ' :: ("SignedHeaders".data ++ '=' :: sh.data) ++
        ',' :: ' ' :: ("Signature".data ++ '=' :: sig.data)⟩) := by
    unfold pyPartitionChar
    rw [hsdata, partitionChar_append_sep (by decide)]
  have hp1comma : (',' : Char) ∉ "Credential".data ++ '=' :: (akid.data ++ '/' :: scope.data) := by
    intro hm
    rcases List.mem_append.1 hm with h | h
    · revert h; decide
    · rcases List.mem_cons.1 h with h | h
      · exact absurd h (by decide)
      · rcases List.mem_append.1 h with h | h
        · exact hak h
        · rcases List.mem_cons.1 h with h | h
          · exact absurd h (by decide)
          · exact hscope h
  have hp2comma : (',' : Char) ∉ "SignedHeaders".data ++ '=' :: sh.data := by
    intro hm
    rcases List.mem_append.1 hm with h | h
    · revert h; decide
    · rcases List.mem_cons.1 h with h | h
      · exact absurd h (by decide)
      · exact hsh h
  have hp3comma : (',' : Char) ∉ "Signature".data ++ '=' :: sig.data := by
    intro hm
    rcases List.mem_append.1 hm with h | h
    · revert h; decide
    · rcases List.mem_cons.1 h with h | h
      · exact absurd h (by decide)
      · exact hsig h
  have hparts : pySplitCommaSpace (pyPartitionChar ' ' s).2.2 =
      [⟨"Credential".data ++ '=' :: (akid.data ++ '/' :: scope.data)⟩,
       ⟨"SignedHeaders".data ++ '=' :: sh.data⟩,
       ⟨"Signature".data ++ '=' :: sig.data⟩] := by
    rw [hpt]
    unfold pySplitCommaSpace
    show (splitCommaSpace ("Credential".data ++ '=' :: (akid.data ++ '/' :: scope.data) ++
        ',' :: ' ' :: ("SignedHeaders".data ++ '=' :: sh.data) ++
        ',' :: ' ' :: ("Signature".data ++ '=' :: sig.data))).map String.mk = _
    rw [show "Credential".data ++ '=' :: (akid.data ++ '/' :: scope.data) ++
        ',' :: ' ' :: ("SignedHeaders".data ++ '=' :: sh.data) ++
        ',' :: ' ' :: ("Signature".data ++ '=' :: sig.data) =
      ("Credential".data ++ '=' :: (akid.data ++ '/' :: scope.data)) ++
        ',' :: ' ' :: (("SignedHeaders".data ++ '=' :: sh.data) ++
        ',' :: ' ' :: ("Signature".data ++ '=' :: sig.data)) by simp]
    rw [splitCommaSpace_append_sep hp1comma]
    rw [splitCommaSpace_append_sep hp2comma]
    rw [splitCommaSpace_no_sep hp3comma]
    rfl
  have hpe1 : pyPartitionChar '=' ⟨"Credential".data ++ '=' :: (akid.data ++ '/' :: scope.data)⟩ =
      ("Credential", true, ⟨akid.data ++ '/' :: scope.data⟩) := by
    unfold pyPartitionChar
    rw [show (⟨"Credential".data ++ '=' :: (akid.data ++ '/' :: scope.data)⟩ : String).data =
      "Credential".data ++ '=' :: (akid.data ++ '/' :: scope.data) from rfl]
    rw [partitionChar_append_sep (by decide)]
  have hpe2 : pyPartitionChar '=' ⟨"SignedHeaders".data ++ '=' :: sh.data⟩ =
      ("SignedHeaders", true, ⟨sh.data⟩) := by
    unfold pyPartitionChar
    rw [show (⟨"SignedHeaders".data ++ '=' :: sh.data⟩ : String).data =
      "SignedHeaders".data ++ '=' :: sh.data from rfl]
    rw [partitionChar_append_sep (by decide)]
  have hpe3 : pyPartitionChar '=' ⟨"Signature".data ++ '=' :: sig.data⟩ =
      ("Signature", true, ⟨sig.data⟩) := by
    unfold pyPartitionChar
    rw [show (⟨"Signature".data ++ '=' :: sig.data⟩ : String).data =
      "Signature".data ++ '=' :: sig.data from rfl]
    rw [partitionChar_append_sep (by decide)]
  have hcred : (⟨akid.data ++ '/' :: scope.data⟩ : String) = akid ++ "/" ++ scope := by
    apply string_data_inj
    simp [strData_append]
  have hdict : authDataDict s =
      [("credential", akid ++ "/" ++ scope), ("signedheaders", sh), ("signature", sig)] := by
    unfold authDataDict
    rw [hparts]
    rw [List.foldl_cons, List.foldl_cons, List.foldl_cons, List.foldl_nil]
    simp only [hpe1, hpe2, hpe3]
    rw [show pyLower "Credential" = "credential" by decide]
    rw [show pyLower "SignedHeaders" = "signedheaders" by decide]
    rw [show pyLower "Signature" = "signature" by decide]
    rw [hcred]
    rw [strMk_data, strMk_data]
    rfl
  rw [parse_authorization_via_dict, hdict, hpt]
  rfl

theorem split_scope (d8 region service : String)
    (hd : '/' ∉ d8.data) (hr : '/' ∉ region.data) (hsv : '/' ∉ service.data) :
    pySplitChar '/' (d8 ++ "/" ++ region ++ "/" ++ service ++ "/aws4_request") =
      [d8, region, service, "aws4_request"] := by
  unfold pySplitChar
  have hdata : (d8 ++ "/" ++ region ++ "/" ++ service ++ "/aws4_request").data =
      d8.data ++ '/' :: (region.data ++ '/' :: (service.data ++
        '/' :: "aws4_request".data)) := by
    simp only [strData_append, List.append_assoc]
    simp
  rw [hdata]
  rw [splitChar_append_sep hd, splitChar_append_sep hr, splitChar_append_sep hsv,
    splitChar_no_sep (by decide)]
  simp [strMk_data]

theorem partition_slash (akid rest : String) (h : '/' ∉ akid.data) :
    pyPartitionChar '/' (akid ++ "/" ++ rest) = (akid, true, rest) := by
  unfold pyPartitionChar
  have hdata : (akid ++ "/" ++ rest).data = akid.data ++ '/' :: rest.data := by
    simp only [strData_append, List.append_assoc]
    simp
  rw [hdata, partitionChar_append_sep h]

theorem canonicalHeaderNames_semicolon_free {hs : Headers}
    (hnames : ∀ e ∈ hs, ';' ∉ e.1.data) :
    ∀ n ∈ canonicalHeaderNames hs, ';' ∉ n.data := by
  intro n hn
  obtain ⟨_, kv, hkv, hke⟩ := (canonicalHeaderNames_mem hs n).1 hn
  rw [← hke]
  exact pyLower_chars_notMem (by decide) (hnames kv hkv)

theorem shl_recovery {names : List String} (hne : names ≠ [])
    (hsemi : ∀ n ∈ names, ';' ∉ n.data) :
    (splitChar ';' (pyJoinChar ';' names).data).map String.mk = names := by
  unfold pyJoinChar
  rw [show ((⟨joinChar ';' (names.map String.data)⟩ : String).data) =
    joinChar ';' (names.map String.data) from rfl]
  rw [splitChar_joinChar (by simpa using hne)
    (by
      intro g hg
      rcases List.mem_map.1 hg with ⟨n, hn, rfl⟩
      exact hsemi n hn)]
  rw [List.map_map]
  exact List.map_id'' (fun n => strMk_data n) names

theorem names_contains_authorization_false (hs : Headers) :
    (canonicalHeaderNames hs).contains "authorization" = false := by
  cases hc : (canonicalHeaderNames hs).contains "authorization" with
  | false => rfl
  | true =>
    have hmem : "authorization" ∈ canonicalHeaderNames hs := by simpa using hc
    have h2 := ((canonicalHeaderNames_mem hs "authorization").1 hmem).1
    exact absurd h2 (by decide)

theorem recreate_eq_generate {hs1 : Headers} {v : HVal}
    (hsemi : ∀ e ∈ hs1, ';' ∉ e.1.data)
    (hne : canonicalHeaderNames hs1 ≠ []) :
    _recreate_canonical_headers (setCI hs1 "Authorization" v)
        (_generate_canonical_headers hs1).2 =
      (_generate_canonical_headers hs1).1 := by
  have hsh : (_generate_canonical_headers hs1).2 =
      pyJoinChar ';' (canonicalHeaderNames hs1) := rfl
  unfold _recreate_canonical_headers
  rw [hsh, shl_recovery hne (canonicalHeaderNames_semicolon_free hsemi)]
  have hset : buildDict (fun k => (canonicalHeaderNames hs1).contains k)
      (setCI hs1 "Authorization" v) [] =
      buildDict (fun k => (canonicalHeaderNames hs1).contains k) hs1 [] := by
    apply buildDict_setCI
    rw [show pyLower "Authorization" = "authorization" from by decide]
    exact names_contains_authorization_false hs1
  have hagree : buildDict (fun k => (canonicalHeaderNames hs1).contains k) hs1 [] =
      buildDict (fun k => !(excludedHeaders.contains k)) hs1 [] := by
    apply buildDict_agree
    intro e he
    by_cases hx : excludedHeaders.contains (pyLower e.1) = true
    · rw [hx]
      simp only [Bool.not_true]
      cases hc : (canonicalHeaderNames hs1).contains (pyLower e.1) with
      | false => rfl
      | true =>
        have hmem : pyLower e.1 ∈ canonicalHeaderNames hs1 := by simpa using hc
        have h2 := ((canonicalHeaderNames_mem hs1 (pyLower e.1)).1 hmem).1
        rw [hx] at h2
        exact absurd h2 (by simp)
    · have hx' : excludedHeaders.contains (pyLower e.1) = false := by
        simpa using hx
      rw [hx']
      simp only [Bool.not_false]
      have hmem : pyLower e.1 ∈ canonicalHeaderNames hs1 :=
        (canonicalHeaderNames_mem hs1 (pyLower e.1)).2 ⟨hx', ⟨e, he, rfl⟩⟩
      simpa using hmem
  dsimp only
  rw [hset, hagree]
  rfl

theorem canonicalHeaderNames_char_free {hs : Headers} {x : Char}
    (hx : ¬(97 ≤ x.toNat ∧ x.toNat ≤ 122))
    (hnames : ∀ e ∈ hs, x ∉ e.1.data) :
    ∀ n ∈ canonicalHeaderNames hs, x ∉ n.data := by
  intro n hn
  obtain ⟨_, kv, hkv, hke⟩ := (canonicalHeaderNames_mem hs n).1 hn
  rw [← hke]
  exact pyLower_chars_notMem hx (hnames kv hkv)

theorem recreate_hash_eq {method : String} {url : Url} {hs1 : Headers}
    {v : HVal} {csha : String}
    (hsemi : ∀ e ∈ hs1, ';' ∉ e.1.data)
    (hne : canonicalHeaderNames hs1 ≠ []) :
    _recreate_canonical_request_hash method url (setCI hs1 "Authorization" v)
        (_generate_canonical_headers hs1).2 csha =
      (_generate_canonical_request_hash method url hs1 csha).1 := by
  unfold _recreate_canonical_request_hash _generate_canonical_request_hash
  dsimp only
  rw [recreate_eq_generate hsemi hne]

/-- C1 (amended): round-trip holds under the stated well-formedness side
conditions: the access key id, region and service name contain no slash or
comma, header names contain no semicolon or comma, the headers carry an
x-amz-date entry equal to the AMZ-format timestamp being signed and no
x-amz-content-sha256 entry, and the current time at extraction is within
five seconds of the signed timestamp; then extracting a challenge from the
signed request succeeds and validating that challenge with the same secret
raises no error. -/
theorem C1_round_trip (service_name method region access_key_id secret_access_key : String)
    (url : Url) (headers : Headers) (content : Option (List Nat)) (ts now u : DateTime)
    (hak1 : '/' ∉ access_key_id.data) (hak2 : ',' ∉ access_key_id.data)
    (hr1 : '/' ∉ region.data) (hr2 : ',' ∉ region.data)
    (hv1 : '/' ∉ service_name.data) (hv2 : ',' ∉ service_name.data)
    (hnames : ∀ e ∈ headers, ';' ∉ e.1.data ∧ ',' ∉ e.1.data)
    (hdate : getCI headers "x-amz-date" = some (.str (to_amz_date ts)))
    (hnoc : getCI headers "x-amz-content-sha256" = none)
    (hparse : parseAmzDate (to_amz_date ts) = some u)
    (hdrift : driftSeconds now u ≤ 5) :
    ∃ ch, generate_challenge method url
        (sign_request service_name method url region headers content
          access_key_id secret_access_key ts) content now = .ok ch ∧
      validate_challenge ch secret_access_key = .ok () := by
  -- abbreviations for the values sign_request computes
  set csha := signRequestContentSha url content with hcsha
  set hs1 := headers ++ [("x-amz-content-sha256", HVal.str csha)] with hhs1def
  have hhs1 : signRequestHeaders1 url headers content = hs1 := by
    unfold signRequestHeaders1
    rw [if_pos (by rw [hnoc]; rfl)]
    rw [hhs1def, hcsha]
    exact setCI_of_getCI_none _ hnoc
  set scope := signRequestScope service_name region ts with hscope
  set sh := (_generate_canonical_request_hash method url hs1 csha).2 with hsh
  set crh := (_generate_canonical_request_hash method url hs1 csha).1 with hcrh
  set sig := signRequestSignature service_name method url region headers content
    secret_access_key ts with hsig
  set authval := signRequestAuthValue service_name method url region headers content
    access_key_id secret_access_key ts with hauthval
  have hout : sign_request service_name method url region headers content
      access_key_id secret_access_key ts = setCI hs1 "Authorization" (.str authval) := by
    unfold sign_request
    rw [hhs1]
  -- character facts
  have hsigner_digits := to_signer_date_chars ts
  have hsigner_slash : '/' ∉ (to_signer_date ts).data :=
    charNotMem_of_subset hsigner_digits (by decide)
  have hsigner_comma : ',' ∉ (to_signer_date ts).data :=
    charNotMem_of_subset hsigner_digits (by decide)
  have hscope_comma : ',' ∉ scope.data := by
    rw [hscope]
    unfold signRequestScope
    intro hm
    simp only [strData_append, List.append_assoc, List.mem_append] at hm
    rcases hm with h | h | h | h | h | h
    · exact hsigner_comma h
    · exact absurd h (by decide)
    · exact hr2 h
    · exact absurd h (by decide)
    · exact hv2 h
    · exact absurd h (by decide)
  have hhs1_semi : ∀ e ∈ hs1, ';' ∉ e.1.data := by
    intro e he
    rcases List.mem_append.1 (hhs1def ▸ he) with h | h
    · exact (hnames e h).1
    · rcases List.mem_singleton.1 h with rfl
      exact (by decide : ';' ∉ "x-amz-content-sha256".data)
  have hhs1_comma : ∀ e ∈ hs1, ',' ∉ e.1.data := by
    intro e he
    rcases List.mem_append.1 (hhs1def ▸ he) with h | h
    · exact (hnames e h).2
    · rcases List.mem_singleton.1 h with rfl
      exact (by decide : ',' ∉ "x-amz-content-sha256".data)
  have hnamesne : canonicalHeaderNames hs1 ≠ [] := by
    intro hempty
    have hmem : "x-amz-content-sha256" ∈ canonicalHeaderNames hs1 :=
      (canonicalHeaderNames_mem hs1 "x-amz-content-sha256").2
        ⟨by decide, ⟨("x-amz-content-sha256", HVal.str csha),
          by rw [hhs1def]; exact List.mem_append_right _ (List.mem_singleton.2 rfl),
          (by decide : pyLower "x-amz-content-sha256" = "x-amz-content-sha256")⟩⟩
    rw [hempty] at hmem
    exact absurd hmem (by simp)
  -- the Authorization value has the parsed shape
  have hsh_gen : sh = (_generate_canonical_headers hs1).2 := rfl
  have hauthshape : authval = "AWS4-HMAC-SHA256 Credential=" ++ access_key_id ++ "/" ++
      scope ++ ", SignedHeaders=" ++ sh ++ ", Signature=" ++ sig := by
    rw [hauthval]
    unfold signRequestAuthValue
    rw [hhs1]
  have hsh_comma : ',' ∉ sh.data := by
    rw [hsh_gen]
    intro hm
    have hm' : ',' ∈ joinChar ';' ((canonicalHeaderNames hs1).map String.data) := hm
    rcases mem_joinChar hm' with h | ⟨g, hg, hcg⟩
    · exact absurd h (by decide)
    · rcases List.mem_map.1 hg with ⟨n, hn, rfl⟩
      exact canonicalHeaderNames_char_free (by decide) hhs1_comma n hn hcg
  have hsig_comma : ',' ∉ sig.data := by
    rw [hsig]
    unfold signRequestSignature generate_signature
    exact charNotMem_of_subset (hexOfBytes_chars _) (by decide)
  have hparse_ok : _parse_authorization authval =
      .ok ("AWS4-HMAC-SHA256", access_key_id ++ "/" ++ scope, sh, sig) := by
    rw [hauthshape]
    exact parse_signed_auth access_key_id scope sh sig hak2 hscope_comma hsh_comma hsig_comma
  set out := setCI hs1 "Authorization" (HVal.str authval) with houtdef
  have hget_auth : getCI out "Authorization" = some (.str authval) :=
    getCI_setCI_self _ _ _
  have hlowne_ch : pyLower "x-amz-content-sha256" ≠ pyLower "Authorization" := by decide
  have hlowne_date : pyLower "x-amz-date" ≠ pyLower "Authorization" := by decide
  have hget_ch : getCI out "x-amz-content-sha256" = some (.str csha) := by
    rw [houtdef, getCI_setCI_other hlowne_ch, hhs1def]
    rw [getCI_append_right _ hnoc]
    rfl
  have hget_date : getCI out "x-amz-date" = some (.str (to_amz_date ts)) := by
    rw [houtdef, getCI_setCI_other hlowne_date, hhs1def]
    exact getCI_append_left hdate
  have hkeydate : _parse_key_date out now = .ok (to_amz_date ts) := by
    unfold _parse_key_date
    rw [hget_date]
    show (match parseAmzDate (to_amz_date ts) with
      | none => Except.error PyError.parseError
      | some header =>
        if 5 < driftSeconds now header then Except.error PyError.invalidDate
        else Except.ok (to_amz_date ts)) = Except.ok (to_amz_date ts)
    rw [hparse]
    show (if 5 < driftSeconds now u then Except.error PyError.invalidDate
      else Except.ok (to_amz_date ts)) = Except.ok (to_amz_date ts)
    rw [if_neg (Nat.not_lt.2 hdrift)]
  have hcontent_eq : (if csha ≠ "UNSIGNED-PAYLOAD" then sha256_hash content
      else "UNSIGNED-PAYLOAD") = csha := by
    rw [hcsha]
    unfold signRequestContentSha
    by_cases hsch : url.scheme = "http"
    · rw [if_pos hsch]
      have hlen : (sha256_hash content).length = 64 := by
        unfold sha256_hash
        rw [hexOfBytes_length, sha256Bytes_length]
      rw [if_pos (fun he => by rw [he] at hlen; exact absurd hlen (by decide))]
    · rw [if_neg hsch]
      rw [if_neg (by simp)]
  have hsplit : pySplitChar '/' scope =
      [to_signer_date ts, region, service_name, "aws4_request"] := by
    rw [hscope]
    unfold signRequestScope
    exact split_scope _ _ _ hsigner_slash hr1 hv1
  have hpc : pyPartitionChar '/' (access_key_id ++ "/" ++ scope) =
      (access_key_id, true, scope) := partition_slash _ _ hak1
  have hrecreate : _recreate_canonical_request_hash method url out sh csha = crh := by
    rw [houtdef, hsh_gen]
    rw [recreate_hash_eq hhs1_semi hnamesne]
  have hdl : ([to_signer_date ts, region, service_name, "aws4_request"]).dropLast =
      [to_signer_date ts, region, service_name] := rfl
  have hchal : generate_challenge method url out content now =
      .ok ⟨scope, "AWS4-HMAC-SHA256" ++ "
" ++ to_amz_date ts ++ "
" ++ scope ++
        "
" ++ crh, sig, some access_key_id⟩ := by
    unfold generate_challenge
    rw [hget_auth]
    simp only [hparse_ok, hget_ch, hcontent_eq, hpc, hsplit, hdl, hkeydate, hrecreate]
    simp
  have hsts_eq : ("AWS4-HMAC-SHA256" ++ "
" ++ to_amz_date ts ++ "
" ++ scope ++
      "
" ++ crh) = signRequestStringToSign service_name method url region headers
        content ts := by
    unfold signRequestStringToSign
    rw [hhs1]
    apply string_data_inj
    simp [strData_append]
  have hsig_eq : generate_signature
      (generate_signing_key secret_access_key (to_signer_date ts) region service_name)
      ("AWS4-HMAC-SHA256" ++ "
" ++ to_amz_date ts ++ "
" ++ scope ++ "
" ++ crh) =
      sig := by
    rw [hsts_eq, hsig]
    rfl
  have hvalid : validate_challenge ⟨scope, "AWS4-HMAC-SHA256" ++ "
" ++ to_amz_date ts
      ++ "
" ++ scope ++ "
" ++ crh, sig, some access_key_id⟩ secret_access_key =
      .ok () := by
    unfold validate_challenge
    simp only [hsplit, hdl, hsig_eq]
    simp
  exact ⟨⟨scope, "AWS4-HMAC-SHA256" ++ "
" ++ to_amz_date ts ++ "
" ++ scope ++
    "
" ++ crh, sig, some access_key_id⟩, by rw [hout]; exact hchal, hvalid⟩

set_option maxHeartbeats 4000000 in
/-- C1 counterexample to the claim as stated: sign_request never injects an
x-amz-date header, so for a header mapping without one (here: empty
headers) challenge extraction from the freshly signed request fails with
MissingHeaderError instead of succeeding; the claimed round trip does not
hold for arbitrary headers and timestamps. -/
theorem C1_counterexample :
    generate_challenge "GET" ⟨"https", "/p", none⟩
      (sign_request "svc" "GET" ⟨"https", "/p", none⟩ "r" [] none "ak" "sk"
        ⟨2023, 8, 9, 1, 2, 3⟩) none ⟨2023, 8, 9, 1, 2, 3⟩ =
      .error .missingHeader := by
  rfl

/-- Witness for C1 at concrete inputs satisfying the side conditions. -/
theorem C1_round_trip_witness :
    ∃ ch, generate_challenge "PUT" ⟨"http", "/my/path", some "foo=bar"⟩
        (sign_request "service" "PUT" ⟨"http", "/my/path", some "foo=bar"⟩ "ksa"
          [("Host", .str "example.com"), ("x-amz-date", .str "20230809T010203Z")]
          (some [115, 111]) "access-key" "secret-key" ⟨2023, 8, 9, 1, 2, 3⟩)
        (some [115, 111]) ⟨2023, 8, 9, 1, 2, 7⟩ = .ok ch ∧
      validate_challenge ch "secret-key" = .ok () :=
  C1_round_trip "service" "PUT" "ksa" "access-key" "secret-key"
    ⟨"http", "/my/path", some "foo=bar"⟩
    [("Host", .str "example.com"), ("x-amz-date", .str "20230809T010203Z")]
    (some [115, 111]) ⟨2023, 8, 9, 1, 2, 3⟩ ⟨2023, 8, 9, 1, 2, 7⟩
    ⟨2023, 8, 9, 1, 2, 3⟩ (by decide) (by decide) (by decide) (by decide)
    (by decide) (by decide) (by decide) (by decide) (by decide) (by decide)
    (by decide)
